import Mathlib

/-!
Verification development for the free_query dynamic-schema query engine.

The definitions below are shallow embeddings of the Python functions in
`query_processor.py` and `free_query_v3.py`.  External LLM / sqlite calls are
modelled as explicit oracle parameters (a call that raises is an oracle
returning `none` / `Except.error`).  Python strings are modelled as Lean
`String` restricted to their ASCII behaviour (`str.lower`, `str.isalnum`,
etc. are embedded for the ASCII fragment).  A Python function that can raise
an uncaught exception is embedded with an `Option`/`Except` result, `none` /
`.error` marking the raise.
-/

set_option maxHeartbeats 1000000
set_option linter.unusedVariables false
set_option linter.unusedSectionVars false
set_option linter.unnecessarySeqFocus false

/-! ## ASCII fragment of the Python string primitives -/

/-- Characters stripped by Python `str.strip()` with no arguments. -/
def pyIsSpace (c : Char) : Bool :=
  c == ' ' || c == '\t' || c == '\n' || c == '\r' || c == '\x0b' || c == '\x0c'

/-- Python `str.isalpha` for a single character (ASCII fragment). -/
def pyIsAlpha (c : Char) : Bool :=
  ('a' ≤ c && c ≤ 'z') || ('A' ≤ c && c ≤ 'Z')

/-- ASCII digit test. -/
def pyIsDigit (c : Char) : Bool :=
  '0' ≤ c && c ≤ '9'

/-- Python `str.isalnum` for a single character (ASCII fragment). -/
def pyIsAlnum (c : Char) : Bool :=
  pyIsAlpha c || pyIsDigit c

/-- Python `str.lower` on one character (ASCII fragment). -/
def pyToLower (c : Char) : Char :=
  if 'A' ≤ c && c ≤ 'Z' then Char.ofNat (c.toNat + 32) else c

/-- Python `str.upper` on one character (ASCII fragment). -/
def pyToUpper (c : Char) : Char :=
  if 'a' ≤ c && c ≤ 'z' then Char.ofNat (c.toNat - 32) else c

/-- Python `str.lower` (ASCII fragment), character-wise. -/
def lowerStr (s : String) : String := String.mk (s.data.map pyToLower)

/-- Python `str.upper` (ASCII fragment), character-wise. -/
def upperStr (s : String) : String := String.mk (s.data.map pyToUpper)

/-- Strip leading and trailing characters satisfying `p` from a character list. -/
def trimBy (p : Char → Bool) (l : List Char) : List Char :=
  ((l.dropWhile p).reverse.dropWhile p).reverse

/-- Python `str.strip()` (no argument: whitespace). -/
def stripWs (s : String) : String := String.mk (trimBy pyIsSpace s.data)

/-- Python `str.strip(chars)` where the char set is just the double quote,
as in `.strip(chr(34) * 3)`. -/
def stripQuotes (s : String) : String := String.mk (trimBy (fun c => c == '"') s.data)

/-- `leadsWith n l` is true when the list `l` starts with the list `n`. -/
def leadsWith : List Char → List Char → Bool
  | [], _ => true
  | _ :: _, [] => false
  | a :: as, b :: bs => a == b && leadsWith as bs

/-- Python substring test `n in h` on character lists. -/
def occursIn (n : List Char) : List Char → Bool
  | [] => n.isEmpty
  | c :: t => leadsWith n (c :: t) || occursIn n t

/-- Python substring test `needle in hay` on strings. -/
def strContains (hay needle : String) : Bool := occursIn needle.data hay.data

/-- Fuel-driven worker for Python `str.replace` (all non-overlapping
occurrences, left to right).  One unit of fuel is spent per consumed
character, so fuel `h.length` always suffices. -/
def replaceLF (r n : List Char) : Nat → List Char → List Char
  | 0, h => h
  | _ + 1, [] => []
  | f + 1, c :: t =>
    if !n.isEmpty && leadsWith n (c :: t) then
      r ++ replaceLF r n f ((c :: t).drop n.length)
    else
      c :: replaceLF r n f t

/-- Python `str.replace(n, r)` on character lists (for non-empty `n`). -/
def replaceL (n r h : List Char) : List Char := replaceLF r n h.length h

/-- Python `str.replace(n, r)` on strings (for non-empty `n`, which is the
only way the sources call it). -/
def replaceS (n r s : String) : String := String.mk (replaceL n.data r.data s.data)

/-- Worker for Python `str.split()`: split on whitespace runs, dropping
empty pieces; `cur` holds the current word reversed. -/
def splitWsAux : List Char → List Char → List (List Char)
  | [], cur => if cur.isEmpty then [] else [cur.reverse]
  | c :: t, cur =>
    if pyIsSpace c then
      if cur.isEmpty then splitWsAux t [] else cur.reverse :: splitWsAux t []
    else
      splitWsAux t (c :: cur)

/-- Python `str.split()` (no argument). -/
def splitWs (s : String) : List String := (splitWsAux s.data []).map String.mk

/-! ## Identifier sanitizer

`sanitize_field_name` from `query_processor.py` lines 24-29 and
`free_query_v3.py` lines 90-100 (the two copies are identical):

    sanitized = ''.join(c if c.isalnum() else '_' for c in field_name.strip().lower())
    if not sanitized[0].isalpha() and sanitized[0] != '_':
        sanitized = '_' + sanitized
    return sanitized

When `field_name.strip()` is empty, `sanitized` is the empty string and the
subscript `sanitized[0]` raises `IndexError`; the embedding returns `none`
for that raise. -/
def sanitize_field_name (field_name : String) : Option String :=
  let repl := (lowerStr (stripWs field_name)).data.map
    (fun c => if pyIsAlnum c then c else '_')
  match repl with
  | [] => none
  | c :: _ =>
    if !pyIsAlpha c && c != '_' then some (String.mk ('_' :: repl))
    else some (String.mk repl)

/-- Head character class of the regex `^[A-Za-z_][A-Za-z0-9_]*$`. -/
def isIdentHeadChar (c : Char) : Bool :=
  pyIsAlpha c || c == '_'

/-- Tail character class of the regex `^[A-Za-z_][A-Za-z0-9_]*$`. -/
def isIdentTailChar (c : Char) : Bool :=
  isIdentHeadChar c || pyIsDigit c

/-- Matches `^[A-Za-z_][A-Za-z0-9_]*$`. -/
def matchesIdentRegex (s : String) : Bool :=
  match s.data with
  | [] => false
  | c :: t => isIdentHeadChar c && t.all isIdentTailChar

/-! ## Python scalar values

JSON scalars as Python objects: a JSON string, a JSON number, or
`None` (covering both JSON `null` and a missing key, since `dict.get`
defaults to `None`).  JSON numbers always stringify to something `float()`
accepts and are never `str` instances, so one integer payload suffices for
the observable behaviour of the embedded functions. -/
inductive PyV where
  | pstr (s : String)
  | pnum (n : Int)
deriving DecidableEq

/-- Python truthiness of an optional scalar (`if not x`). -/
def pyTruthy : Option PyV → Bool
  | none => false
  | some (PyV.pstr s) => s ≠ ""
  | some (PyV.pnum n) => n ≠ 0

/-! ## Query classification: `decide_query_type`

`free_query_v3.py` lines 300-319.  The LLM call is the oracle `svc`
(`none` models the call raising):

    decision = resp.choices[0].message.content.strip().lower()
    if decision in ("hit", "miss"):
        return decision
    except: pass
    return "hit" if any(f.lower() in query.lower() for f in known_fields) else "miss"
-/
namespace FreeQueryV3

/-- The deterministic final line of `decide_query_type`. -/
def classifyFallback (query : String) (known_fields : List String) : String :=
  if known_fields.any (fun f => strContains (lowerStr query) (lowerStr f)) then "hit"
  else "miss"

def decide_query_type (svc : Option String) (query : String)
    (known_fields : List String) : String :=
  match svc with
  | some resp =>
    let decision := lowerStr (stripWs resp)
    if decision == "hit" || decision == "miss" then decision
    else classifyFallback query known_fields
  | none => classifyFallback query known_fields

end FreeQueryV3

/-! ## Attribute discovery: `decide_new_field`

`free_query_v3.py` lines 416-465 (the copy in `query_processor.py` lines
282-320 has identical post-processing).  The oracle returns the parsed JSON
object as its `new_field` and `parent_field` members (`none` models the call
raising or the JSON parse failing). -/

/-- The fallback field name derived by stripping question stems:
`query.lower().replace("what is the","").replace("find","")
.replace("what is","").replace("show me","").strip()`. -/
def derivedField (query : String) : String :=
  stripWs (replaceS "show me" ""
    (replaceS "what is" ""
      (replaceS "find" ""
        (replaceS "what is the" "" (lowerStr query)))))

namespace FreeQueryV3

def decide_new_field (svc : Option (Option PyV × Option PyV)) (query : String)
    (known_fields : List String) : Option PyV × Option PyV :=
  match svc with
  | none =>
    -- LLM error or JSON error: fallback branch of the `except` handler
    let d := derivedField query
    (some (PyV.pstr (if d = "" then "unknown_new_field_on_error" else d)), none)
  | some (nf, pf) =>
    if pyTruthy nf = false then
      -- `if not new_field:` validation branch
      let d := derivedField query
      (some (PyV.pstr (if d = "" then "unknown_new_field" else d)), none)
    else
      let pf2 : Option PyV :=
        match pf with
        | some (PyV.pstr p) =>
          if lowerStr p = "none" ∨ lowerStr p = "null" ∨ lowerStr p = "" then none
          else some (PyV.pstr p)
        | x => x
      (nf, pf2)

end FreeQueryV3

/-! ## SQL execution: `execute_generated_sql`

The sqlite backend is the oracle `ex : String → Except String (List ρ)`:
`ex sql` is the row list produced by `cur.execute(sql); cur.fetchall()`, and
`Except.error e` models `sqlite3.Error` being raised.  `ρ` is the row type
(opaque to the executor). -/

/-- The fixed table name `TABLE_NAME = "clauses"`. -/
def TABLE_NAME : String := "clauses"

/-- The shared code-fence / quote cleanup:
`sql_code.replace(chr(96)*3 + "sql", "").replace(chr(96)*3, "").strip().strip(chr(34)*3)`. -/
def cleanSql (sql_code : String) : String :=
  stripQuotes (stripWs (replaceS "```" "" (replaceS "```sql" "" sql_code)))

/-- The one textual repair used on a `sqlite3.Error`:
`sql.replace("clause", TABLE_NAME).replace("black company percentage",
chr(34) + "black_company_percentage" + chr(34))`. -/
def fixSql (sql : String) : String :=
  replaceS "black company percentage" "\"black_company_percentage\""
    (replaceS "clause" TABLE_NAME sql)

namespace FreeQueryV3

/-- `free_query_v3.py` lines 390-414.  The retry after a `sqlite3.Error` is
NOT wrapped in a `try`; a failure of the fixed statement propagates to the
caller (the function itself returns `None`, embedded as `Unit`). -/
def execute_generated_sql {ρ : Type} (ex : String → Except String (List ρ))
    (sql_code : String) : Except String Unit :=
  let sql := cleanSql sql_code
  match ex sql with
  | Except.ok _ => Except.ok ()
  | Except.error _ =>
    match ex (fixSql sql) with
    | Except.ok _ => Except.ok ()
    | Except.error e2 => Except.error e2

end FreeQueryV3

namespace QueryProcessor

/-- The `except sqlite3.Error` repair branch of `query_processor.py`
lines 430-456: run the fixed statement once; a second `sqlite3.Error` is
caught and swallowed, leaving `results == []`.  (The diagnostic
`SELECT ... LIMIT 5` issued when the retry returns no rows only prints and
cannot change `results`.) -/
def repairBranch {ρ : Type} (ex : String → Except String (List ρ))
    (sql : String) : List ρ :=
  match ex (fixSql sql) with
  | Except.error _ => []
  | Except.ok rows => if rows.isEmpty then [] else rows

/-- `query_processor.py` lines 395-460.  Inside the `try`, the function first
runs `SELECT COUNT(*)`, then the cleaned statement, then (when no rows came
back) a diagnostic `SELECT ... LIMIT 5`; any `sqlite3.Error` in that block
jumps to the repair branch.  The returned value is `results`. -/
def execute_generated_sql {ρ : Type} (ex : String → Except String (List ρ))
    (sql_code : String) : List ρ :=
  let sql := cleanSql sql_code
  match ex ("SELECT COUNT(*) FROM " ++ TABLE_NAME) with
  | Except.error _ => repairBranch ex sql
  | Except.ok _ =>
    match ex sql with
    | Except.error _ => repairBranch ex sql
    | Except.ok rows =>
      if rows.isEmpty then
        match ex ("SELECT * FROM " ++ TABLE_NAME ++ " LIMIT 5") with
        | Except.error _ => repairBranch ex sql
        | Except.ok _ => []
      else rows

end QueryProcessor

/-! ## Python dicts as ordered association lists

A parsed JSON object / record is a `List (String × Option PyV)` in insertion
order with unique keys; `dictSet` models `d[k] = v` (update in place, or
append a new key at the end) and `pyGet` models `d.get(k)` (default
`None`). -/

abbrev Rec := List (String × Option PyV)

def dictHasKey {ν : Type} (d : List (String × ν)) (k : String) : Bool :=
  d.any (fun kv => kv.1 == k)

def dictFind {ν : Type} (d : List (String × ν)) (k : String) : Option ν :=
  (d.find? (fun kv => kv.1 == k)).map Prod.snd

def dictSet {ν : Type} (d : List (String × ν)) (k : String) (v : ν) :
    List (String × ν) :=
  if dictHasKey d k then d.map (fun kv => if kv.1 == k then (k, v) else kv)
  else d ++ [(k, v)]

/-- Python `record.get(k)`: `None` both when the key is missing and when it
is bound to `None`. -/
def pyGet (d : Rec) (k : String) : Option PyV :=
  match dictFind d k with
  | some v => v
  | none => none

/-! ## Extraction: `extract_fields_from_clause`

`free_query_v3.py` lines 216-271.  The first statement mutates the clause:
`clause += " zebra percentage: " + str(random.random())`; the random draw is
the parameter `z`.  The LLM call plus `json.loads` is the oracle `svc`
applied to the mutated clause (`none` models the call raising OR the JSON
parse failing — both handlers return `{field: None for field in fields}`,
WITHOUT a `clause` key).  On success, missing requested fields are filled
with `None` and `result['clause']` is set to the mutated clause. -/
namespace FreeQueryV3

def extract_fields_from_clause (svc : String → Option Rec) (z : String)
    (clause : String) (fields : List String) : Rec :=
  let clause2 := clause ++ " zebra percentage: " ++ z
  match svc clause2 with
  | none => fields.map (fun f => (f, none))
  | some result =>
    let result2 := fields.foldl
      (fun acc f => if dictHasKey acc f then acc else acc ++ [(f, none)]) result
    dictSet result2 "clause" (some (PyV.pstr clause2))

end FreeQueryV3

/-! ## Type inference: `infer_sql_column_type`

`query_processor.py` lines 31-93.  Value-shape tests embed the relevant
fragment of Python `float()` (optionally signed decimal mantissa with
optional exponent, surrounded by whitespace; the exotic `inf`/`nan`/
underscore forms never arise here) and of
`datetime.strptime` for the four formats
`%Y-%m-%d`, `%m/%d/%Y`, `%d/%m/%Y`, `%Y/%m/%d` (fixed 4-digit year, 1-2
digit greedy month/day, full-string match, calendar validation). -/

/-- `str(val).replace(chr(36), "").replace(",", "")`. -/
def cleanNumStr (s : String) : String := replaceS "," "" (replaceS "$" "" s)

/-- Optional exponent part then end of string. -/
def expTailOk : List Char → Bool
  | [] => true
  | c :: t =>
    if c == 'e' || c == 'E' then
      let t2 := match t with
        | s :: t1 => if s == '+' || s == '-' then t1 else s :: t1
        | [] => []
      !(t2.takeWhile pyIsDigit).isEmpty && (t2.dropWhile pyIsDigit).isEmpty
    else false

/-- Decimal mantissa (digits, optional dot) then optional exponent. -/
def mantissaOk (l : List Char) : Bool :=
  let d1 := l.takeWhile pyIsDigit
  match l.dropWhile pyIsDigit with
  | '.' :: r2 =>
    (!d1.isEmpty || !(r2.takeWhile pyIsDigit).isEmpty) &&
      expTailOk (r2.dropWhile pyIsDigit)
  | r1 => !d1.isEmpty && expTailOk r1

/-- Python `float(s)` succeeds (decimal fragment). -/
def pyFloatOk (s : String) : Bool :=
  let l := trimBy pyIsSpace s.data
  let l2 := match l with
    | c :: t => if c == '+' || c == '-' then t else c :: t
    | [] => []
  mantissaOk l2

/-- Greedy 1-2 digit number. -/
def parse2 : List Char → Option (Nat × List Char)
  | a :: t =>
    if pyIsDigit a then
      match t with
      | b :: t2 =>
        if pyIsDigit b then some ((a.toNat - 48) * 10 + (b.toNat - 48), t2)
        else some (a.toNat - 48, t)
      | [] => some (a.toNat - 48, [])
    else none
  | [] => none

/-- Exactly 4 digits. -/
def parse4 : List Char → Option (Nat × List Char)
  | a :: b :: c :: d :: t =>
    if pyIsDigit a && pyIsDigit b && pyIsDigit c && pyIsDigit d then
      some ((((a.toNat - 48) * 10 + (b.toNat - 48)) * 10 + (c.toNat - 48)) * 10
        + (d.toNat - 48), t)
    else none
  | _ => none

def expectSep (sep : Char) : List Char → Option (List Char)
  | c :: t => if c == sep then some t else none
  | [] => none

def isLeapYear (y : Nat) : Bool :=
  (y % 4 == 0 && y % 100 != 0) || y % 400 == 0

def daysInMonth (y m : Nat) : Nat :=
  if m == 2 then (if isLeapYear y then 29 else 28)
  else if m == 4 || m == 6 || m == 9 || m == 11 then 30
  else 31

/-- `datetime(year, month, day)` constructor validation. -/
def validYMD (y m d : Nat) : Bool :=
  decide (1 ≤ y ∧ y ≤ 9999 ∧ 1 ≤ m ∧ m ≤ 12 ∧ 1 ≤ d ∧ d ≤ daysInMonth y m)

def fmtYmd (sep : Char) (l : List Char) : Option (Nat × Nat × Nat) := do
  let (y, r1) ← parse4 l
  let r2 ← expectSep sep r1
  let (m, r3) ← parse2 r2
  let r4 ← expectSep sep r3
  let (d, r5) ← parse2 r4
  if r5.isEmpty then some (y, m, d) else none

def fmtMdy (sep : Char) (l : List Char) : Option (Nat × Nat × Nat) := do
  let (m, r1) ← parse2 l
  let r2 ← expectSep sep r1
  let (d, r3) ← parse2 r2
  let r4 ← expectSep sep r3
  let (y, r5) ← parse4 r4
  if r5.isEmpty then some (y, m, d) else none

def fmtDmy (sep : Char) (l : List Char) : Option (Nat × Nat × Nat) := do
  let (d, r1) ← parse2 l
  let r2 ← expectSep sep r1
  let (m, r3) ← parse2 r2
  let r4 ← expectSep sep r3
  let (y, r5) ← parse4 r4
  if r5.isEmpty then some (y, m, d) else none

def checkYMD : Option (Nat × Nat × Nat) → Bool
  | some (y, m, d) => validYMD y m d
  | none => false

/-- One of the four `strptime` formats parses the whole string to a valid
calendar date. -/
def pyDateOk (s : String) : Bool :=
  checkYMD (fmtYmd '-' s.data) || checkYMD (fmtMdy '/' s.data) ||
    checkYMD (fmtDmy '/' s.data) || checkYMD (fmtYmd '/' s.data)

/-- One iteration of the numeric-count loop:
`isinstance(val, str) and chr(37) in val` counts immediately, otherwise
`float(str(val).replace(chr(36), "").replace(",", ""))` must succeed;
`None` is skipped. -/
def isNumericVal : Option PyV → Bool
  | none => false
  | some (PyV.pstr s) =>
    if occursIn ['%'] s.data then true else pyFloatOk (cleanNumStr s)
  | some (PyV.pnum _) => true

/-- One iteration of the date-count loop (`isinstance(val, str)` guarded). -/
def isDateVal : Option PyV → Bool
  | some (PyV.pstr s) => pyDateOk s
  | _ => false

def nonNullCount (values : List (Option PyV)) : Nat :=
  (values.filter Option.isSome).length

def numericCount (values : List (Option PyV)) : Nat :=
  (values.filter isNumericVal).length

def dateCount (values : List (Option PyV)) : Nat :=
  (values.filter isDateVal).length

def numeric_indicators : List String :=
  ["amount", "price", "cost", "fee", "percentage", "rate", "number", "count", "quantity"]

def date_indicators : List String :=
  ["date", "time", "deadline", "expiry", "expiration", "start", "end"]

namespace QueryProcessor

/-- `query_processor.py` lines 31-93.  The float comparison
`count > n * 0.5` is exact for these integer magnitudes, embedded as
`2 * count > n`.  The `try/except` wrapper is not observable: the body
cannot raise. -/
def infer_sql_column_type (values : List (Option PyV)) (column_name : String) : String :=
  if 2 * numericCount values > nonNullCount values then "REAL"
  else if 2 * dateCount values > nonNullCount values then "DATE"
  else if numeric_indicators.any (fun ind => strContains (lowerStr column_name) ind) then
    "REAL"
  else if date_indicators.any (fun ind => strContains (lowerStr column_name) ind) then
    "DATE"
  else "TEXT"

end QueryProcessor

/-! ## Table store: `store_records_sql`

`free_query_v3.py` lines 105-180 (the `query_processor.py` copy at lines
166-260 adds value-conversion loops but has identical column-set logic).
The per-column LLM type call is the oracle `inferT`.  The observable effect
on the database is returned as a `StoreResult`: the schema driving the
`DROP TABLE`/`CREATE TABLE` DDL, the `INSERT` column list, and the inserted
value rows.  `records[0]` is evaluated first, so an empty batch raises
`IndexError` (`none`) before any DDL runs; a sanitize failure also raises
before the DDL.

Mutation subtlety embedded faithfully: when `parent_field` is truthy the
loop `record['parent_field'] = parent_field` mutates every record INCLUDING
`sample`, so the later iterations over `sample.keys()` see the appended
`parent_field` key and `cols_list` lists `parent_field` twice (sqlite uses
the first occurrence; both carry the same value). -/

structure StoreResult where
  schema : List (String × String)
  cols_list : List String
  rows : List (List (Option PyV))
deriving DecidableEq

/-- One step of the schema-inference loop over `sample.keys()`: sanitize the
column name (`none` = raise), collect the non-null values of that column
over all records, infer a type, extend the schema dict and the sanitized
column list. -/
def schemaFoldStep (inferT : List PyV → String → String) (records : List Rec)
    (acc : Option (List (String × String) × List String)) (col : String) :
    Option (List (String × String) × List String) :=
  match acc with
  | none => none
  | some (sch, mp) =>
    match sanitize_field_name col with
    | none => none
    | some sc =>
      some (dictSet sch sc (inferT (records.filterMap (fun r => pyGet r col)) col),
        mp ++ [sc])

def buildSchema (inferT : List PyV → String → String) (records : List Rec)
    (sampleKeys : List String) : Option (List (String × String) × List String) :=
  sampleKeys.foldl (schemaFoldStep inferT records) (some ([], []))

/-- The value row inserted for one record: values of the (post-mutation)
sample keys, the `parent_field` value again when a parent was given, and the
`clause` value when `clause` is not among the sample keys. -/
def rowOf (sampleKeys2 : List String) (useParent : Bool) (r : Rec) :
    List (Option PyV) :=
  sampleKeys2.map (fun c => pyGet r c)
    ++ (if useParent then [pyGet r "parent_field"] else [])
    ++ (if sampleKeys2.contains "clause" then [] else [pyGet r "clause"])

/-- The tail of `store_records_sql` after the parent-field mutation: ensure
the `clause` column, build the insert column list and the value rows. -/
def finishStore (schema fmap : List (String × String)) (sampleKeys2 : List String)
    (useParent : Bool) (records2 : List Rec) : StoreResult :=
  let schema3 := if dictHasKey schema "clause" then schema
    else schema ++ [("clause", "TEXT")]
  let cols1 := sampleKeys2.map (fun c => (dictFind fmap c).getD "")
  let cols2 := if useParent then cols1 ++ ["parent_field"] else cols1
  let cols3 := if cols2.contains "clause" then cols2 else cols2 ++ ["clause"]
  ⟨schema3, cols3, records2.map (rowOf sampleKeys2 useParent)⟩

namespace FreeQueryV3

def store_records_sql (inferT : List PyV → String → String) (records : List Rec)
    (parent_field : Option String) : Option StoreResult :=
  match records with
  | [] => none
  | sample :: _ =>
    let sampleKeys := sample.map Prod.fst
    match buildSchema inferT records sampleKeys with
    | none => none
    | some (schema1, mp) =>
      let fmap := sampleKeys.zip mp
      match parent_field with
      | some p =>
        if p != "" then
          match sanitize_field_name p with
          | none => none
          | some _ =>
            let fmap2 := dictSet fmap "parent_field" "parent_field"
            let schema2 := dictSet schema1 "parent_field" "TEXT"
            let records2 := records.map
              (fun r => dictSet r "parent_field" (some (PyV.pstr p)))
            let sample2 := dictSet sample "parent_field" (some (PyV.pstr p))
            some (finishStore schema2 fmap2 (sample2.map Prod.fst) true records2)
        else some (finishStore schema1 fmap sampleKeys false records)
      | none => some (finishStore schema1 fmap sampleKeys false records)

end FreeQueryV3

/-! ## Filter synthesis: `generate_filter_sql`

`free_query_v3.py` lines 321-388.  The LLM call is `svc` (`none` models the
call raising, in which case the `except` handler itself hits an unbound
`field_name` and the `NameError` propagates: `Except.error ()`).
Post-processing order as in the source: strip, find the first schema column
occurring case-insensitively in the query, insert the `IS NOT NULL` guard,
enforce the table name, fix `SELECT *,` artifacts, then rewrite raw field
names to sanitized ones.  A sanitize `IndexError` during the find loop or
the rename loop is caught by the handler, which returns the guarded
fallback when `field_name`/`sanitized_field_name` are truthy and the plain
`SELECT *` fallback otherwise. -/

/-- The inserted `IS NOT NULL` guard text for a sanitized column. -/
def guardFor (san : String) : String := "\"" ++ san ++ "\" IS NOT NULL"

/-- Guard insertion: `if "WHERE" not in sql.upper(): ... else sql.replace("WHERE", ...)`.
The membership test is case-insensitive but the `str.replace` is
case-sensitive. -/
def addGuard (san table sql : String) : String :=
  if strContains (upperStr sql) "WHERE" = false then
    "SELECT * FROM " ++ table ++ " WHERE " ++ guardFor san
  else replaceS "WHERE" ("WHERE " ++ guardFor san ++ " AND") sql

/-- Table-name enforcement. -/
def fixFromTable (table sql : String) : String :=
  if strContains (upperStr sql) "FROM" = false then "SELECT * FROM " ++ table
  else if (splitWs sql).any
      (fun part => strContains (lowerStr part) (lowerStr table)) = false then
    replaceS "FROM" ("FROM " ++ table) sql
  else sql

/-- `sql.replace("SELECT *,", "SELECT *").replace("SELECT *, ", "SELECT *")`. -/
def fixSelectStar (sql : String) : String :=
  replaceS "SELECT *, " "SELECT *" (replaceS "SELECT *," "SELECT *" sql)

/-- The rename loop: for every schema key whose sanitized form differs,
replace quoted and raw occurrences with the sanitized identifier. -/
def renameFields (keys : List String) (sql : String) : String :=
  keys.foldl (fun acc field =>
    match sanitize_field_name field with
    | none => acc
    | some san =>
      if field ≠ san then
        replaceS field san
          (replaceS ("\x27" ++ field ++ "\x27") ("\"" ++ san ++ "\"")
            (replaceS ("\"" ++ field ++ "\"") ("\"" ++ san ++ "\"") acc))
      else acc) sql

namespace FreeQueryV3

def generate_filter_sql (svc : Option String) (query : String)
    (schema : List (String × String)) (table_name : String) : Except Unit String :=
  match svc with
  | none => Except.error ()
  | some resp =>
    let sql0 := stripWs resp
    let keys := schema.map Prod.fst
    match keys.find? (fun f => strContains (lowerStr query) (lowerStr f)) with
    | some f =>
      match sanitize_field_name f with
      | none => Except.ok ("SELECT * FROM " ++ table_name)
      | some san =>
        let sql3 := fixSelectStar (fixFromTable table_name (addGuard san table_name sql0))
        if keys.any (fun k => (sanitize_field_name k).isNone) then
          Except.ok ("SELECT * FROM " ++ table_name ++ " WHERE \"" ++ san ++ "\" IS NOT NULL")
        else Except.ok (renameFields keys sql3)
    | none =>
      let sql3 := fixSelectStar (fixFromTable table_name sql0)
      if keys.any (fun k => (sanitize_field_name k).isNone) then
        Except.ok ("SELECT * FROM " ++ table_name)
      else Except.ok (renameFields keys sql3)

end FreeQueryV3

/-! ## Merge engine

`query_processor.py` lines 550-615 (row-by-row update-or-insert) and
`free_query_v3.py` lines 467-526 (correlated-subquery `UPDATE` only).
A staging row carries the three selected columns
`clause, "<sanitized_new_field>", parent_field`; a main row carries its
`clause`, the new-field column, `parent_field`, and the remaining columns
opaquely as `rest : ρ` (an inserted row gets the all-`NULL` default
`d : ρ`).  The sqlite comparison `clause = ?` is `sqlEq`: `NULL` compares
false against everything, including `NULL`. -/

structure SRow (α : Type) where
  sclause : Option α
  svalue : Option α
  sparent : Option α
deriving DecidableEq

structure MRow (α ρ : Type) where
  mclause : Option α
  newf : Option α
  parent : Option α
  rest : ρ
deriving DecidableEq

/-- SQL three-valued equality restricted to its truthy outcome:
`a = b` is satisfied only when both sides are non-`NULL` and equal. -/
def sqlEq {α : Type} [DecidableEq α] : Option α → Option α → Bool
  | some x, some y => decide (x = y)
  | _, _ => false

/-- `SELECT 1 FROM main WHERE clause = ?` finds a row. -/
def containsClause {α ρ : Type} [DecidableEq α] (M : List (MRow α ρ)) (c : Option α) : Bool :=
  M.any (fun r => sqlEq r.mclause c)

/-- Effect of the `UPDATE main SET newf = ?, parent_field = ? WHERE clause = ?`
statement on one main row, for one staging row. -/
def updRow {α ρ : Type} [DecidableEq α] (s : SRow α) (r : MRow α ρ) : MRow α ρ :=
  match s.svalue with
  | none => r
  | some v =>
    if sqlEq r.mclause s.sclause then { r with newf := some v, parent := s.sparent }
    else r

/-- One iteration of the merge loop of `query_processor.py`: skip `NULL`
values; update every matching row in place, or append a fresh row whose
other columns are the all-`NULL` default `d`. -/
def mergeStep {α ρ : Type} [DecidableEq α] (d : ρ) (M : List (MRow α ρ)) (s : SRow α) :
    List (MRow α ρ) :=
  match s.svalue with
  | none => M
  | some v =>
    if containsClause M s.sclause then M.map (updRow s)
    else M ++ [⟨s.sclause, some v, s.sparent, d⟩]

namespace QueryProcessor

/-- `query_processor.py` lines 550-615: fold the merge loop over the staging
rows in `SELECT` order. -/
def merge_new_fields_to_main_table {α ρ : Type} [DecidableEq α] (d : ρ)
    (L : List (SRow α)) (M : List (MRow α ρ)) : List (MRow α ρ) :=
  L.foldl (mergeStep d) M

end QueryProcessor

namespace FreeQueryV3

/-- `free_query_v3.py` lines 467-526: a single correlated `UPDATE ... WHERE
EXISTS`; a main row matched by some staging row receives the first matching
staging row's value and parent (even a `NULL` value), and unmatched staging
rows are dropped — no insert happens. -/
def merge_new_fields_to_main_table {α ρ : Type} [DecidableEq α]
    (L : List (SRow α)) (M : List (MRow α ρ)) : List (MRow α ρ) :=
  M.map (fun r =>
    match L.find? (fun s => sqlEq r.mclause s.sclause) with
    | some s => { r with newf := s.svalue, parent := s.sparent }
    | none => r)

end FreeQueryV3

/-- Replaying the update effects of all staging rows on a single main row. -/
def applyAll {α ρ : Type} [DecidableEq α] (L : List (SRow α)) (r : MRow α ρ) : MRow α ρ :=
  L.foldl (fun r s => updRow s r) r

/-- The value/parent pair of the LAST staging row with a non-`NULL` value
whose clause matches `c`. -/
def lastMatch {α : Type} [DecidableEq α] : List (SRow α) → Option α → Option (α × Option α)
  | [], _ => none
  | s :: t, c =>
    match lastMatch t c with
    | some vp => some vp
    | none =>
      match s.svalue with
      | none => none
      | some v => if sqlEq c s.sclause then some (v, s.sparent) else none

def setVP {α ρ : Type} (r : MRow α ρ) (vp : α × Option α) : MRow α ρ :=
  { r with newf := some vp.1, parent := vp.2 }

/-! ## Proof development: helper lemmas and the claim theorems -/
/-! ## Theorems for claim C6 -/

theorem isIdentTailChar_of_mapped (c : Char) :
    isIdentTailChar (if pyIsAlnum c then c else '_') = true := by
  by_cases h : pyIsAlnum c
  · simp only [h, if_pos]
    unfold pyIsAlnum at h
    rcases Bool.or_eq_true _ _ |>.mp h with h1 | h1 <;>
      simp [isIdentTailChar, isIdentHeadChar, h1]
  · simp [h, isIdentTailChar, isIdentHeadChar]

/-- Counterexample to claim C6 as stated: on the empty string (whose `strip()`
is empty) `sanitize_field_name` raises `IndexError` (embedded as `none`)
instead of returning an identifier, so it is not a total never-raising
function. -/
theorem sanitize_empty_raises_c6 :
    sanitize_field_name "" = none ∧ sanitize_field_name "  " = none := by
  constructor <;> rfl

/-- Claim C6 (amended): for every input whose `strip()` is non-empty,
`sanitize_field_name` terminates without raising and returns the string
obtained by lowercasing, replacing every non-alphanumeric character with an
underscore and prefixing an underscore when the first character is not a
letter or underscore; the result matches `^[A-Za-z_][A-Za-z0-9_]*$` (on
ASCII input).  On empty or all-whitespace input the subscript `sanitized[0]`
raises `IndexError`.  Equal inputs still yield equal outputs. -/
theorem sanitize_field_name_valid_c6 (s : String)
    (hne : (stripWs s).data ≠ []) :
    ∃ r, sanitize_field_name s = some r ∧ matchesIdentRegex r = true := by
  unfold sanitize_field_name
  have hlen : (lowerStr (stripWs s)).data ≠ [] := by
    simp only [lowerStr]
    simpa using hne
  cases hrepl : (lowerStr (stripWs s)).data.map (fun c => if pyIsAlnum c then c else '_') with
  | nil =>
    exact absurd (List.map_eq_nil_iff.mp hrepl) hlen
  | cons c t =>
    have hct : ∀ x ∈ c :: t, isIdentTailChar x = true := by
      rw [← hrepl]
      intro x hx
      rcases List.mem_map.mp hx with ⟨c0, _, rfl⟩
      exact isIdentTailChar_of_mapped c0
    have hc := hct c (by simp)
    have ht : t.all isIdentTailChar = true := by
      rw [List.all_eq_true]
      intro x hx
      exact hct x (by simp [hx])
    cases hhead : !pyIsAlpha c && c != '_' with
    | true =>
      refine ⟨String.mk ('_' :: c :: t), by simp [hrepl, hhead], ?_⟩
      simp only [matchesIdentRegex, Bool.and_eq_true]
      refine ⟨by simp [isIdentHeadChar], ?_⟩
      rw [List.all_eq_true]
      intro x hx
      exact hct x hx
    | false =>
      refine ⟨String.mk (c :: t), by simp [hrepl, hhead], ?_⟩
      simp only [matchesIdentRegex, Bool.and_eq_true]
      refine ⟨?_, ht⟩
      rcases Bool.and_eq_false_iff.mp hhead with h | h
      · have h2 : pyIsAlpha c = true := by
          cases hp : pyIsAlpha c <;> simp [hp] at h ⊢
        simp [isIdentHeadChar, h2]
      · simp only [bne] at h
        have h2 : (c == '_') = true := by
          cases hcb : c == '_' <;> simp [hcb] at h ⊢
        simp [isIdentHeadChar, h2]

/-- Witness for the amended C6 theorem at a concrete punctuation-and-space
input. -/
theorem sanitize_field_name_valid_c6_witness :
    ∃ r, sanitize_field_name "My Field 9!" = some r ∧ matchesIdentRegex r = true :=
  sanitize_field_name_valid_c6 "My Field 9!" (by decide)

/-! ## Theorems for claim C4 -/

/-- Counterexample to claim C4 as stated: the service response `"HIT"` is not
exactly `'hit'` or `'miss'`, and no known field occurs in the query, so the
claim demands the fallback result `'miss'`; but `decide_query_type`
normalizes the response with `.strip().lower()` and returns `'hit'` without
consulting the fallback. -/
theorem decide_query_type_cx_c4 :
    ((("HIT" : String) ≠ "hit") ∧ (("HIT" : String) ≠ "miss")) ∧
    strContains (lowerStr "what colour") (lowerStr "zzz") = false ∧
    FreeQueryV3.decide_query_type (some "HIT") "what colour" ["zzz"] = "hit" := by
  refine ⟨⟨by decide, by decide⟩, by decide, by decide⟩

/-- Claim C4 (amended): whenever the classification service call raises, or
returns a response whose `.strip().lower()` normalization is not `'hit'` or
`'miss'`, `decide_query_type` returns `'hit'` iff some known field name
occurs as a case-insensitive substring of the query, and `'miss'` otherwise.
(A response that normalizes to `'hit'`/`'miss'` — e.g. `"HIT "` — is accepted
as-is even though it is not exactly one of the two literals.) -/
theorem decide_query_type_fallback_c4 (svc : Option String) (query : String)
    (known_fields : List String)
    (h : svc = none ∨ ∃ r, svc = some r ∧
      lowerStr (stripWs r) ≠ "hit" ∧ lowerStr (stripWs r) ≠ "miss") :
    (FreeQueryV3.decide_query_type svc query known_fields = "hit" ↔
      ∃ f ∈ known_fields, strContains (lowerStr query) (lowerStr f) = true) ∧
    (FreeQueryV3.decide_query_type svc query known_fields = "hit" ∨
      FreeQueryV3.decide_query_type svc query known_fields = "miss") := by
  have hfb : ∀ q ks, (FreeQueryV3.classifyFallback q ks = "hit" ↔
      ∃ f ∈ ks, strContains (lowerStr q) (lowerStr f) = true) ∧
      (FreeQueryV3.classifyFallback q ks = "hit" ∨
        FreeQueryV3.classifyFallback q ks = "miss") := by
    intro q ks
    unfold FreeQueryV3.classifyFallback
    by_cases hany : ks.any (fun f => strContains (lowerStr q) (lowerStr f)) = true
    · rw [if_pos hany]
      refine ⟨⟨fun _ => ?_, fun _ => rfl⟩, Or.inl rfl⟩
      simpa [List.any_eq_true] using hany
    · rw [if_neg hany]
      refine ⟨⟨fun hh => absurd hh (by decide), fun hex => ?_⟩, Or.inr rfl⟩
      exact absurd (List.any_eq_true.mpr (by simpa using hex)) hany
  rcases h with h | ⟨r, hr, h1, h2⟩
  · subst h
    exact hfb query known_fields
  · subst hr
    have hcond : (lowerStr (stripWs r) == "hit" || lowerStr (stripWs r) == "miss") = false := by
      simp [h1, h2]
    have heq : FreeQueryV3.decide_query_type (some r) query known_fields
        = FreeQueryV3.classifyFallback query known_fields := by
      simp [FreeQueryV3.decide_query_type, hcond]
    rw [heq]
    exact hfb query known_fields

/-- Witness for the amended C4 theorem: service down, known field `company`
occurs in the query, so the fallback classifies `hit`. -/
theorem decide_query_type_fallback_c4_witness :
    FreeQueryV3.decide_query_type none "the company name" ["company"] = "hit" :=
  (decide_query_type_fallback_c4 none "the company name" ["company"]
      (Or.inl rfl)).1.mpr ⟨"company", by decide, by decide⟩

/-! ## Theorems for claim C7 -/

/-- Counterexample to claim C7 as stated: the service proposes
`parent_field = "banana"` with known fields `["company"]`; `"banana"` does
not case-insensitively match any known attribute, yet `decide_new_field`
returns it unchanged — the known-attribute check claimed by the spec does
not exist in the code. -/
theorem decide_new_field_cx_c7 :
    FreeQueryV3.decide_new_field
        (some (some (PyV.pstr "x"), some (PyV.pstr "banana"))) "q" ["company"]
      = (some (PyV.pstr "x"), some (PyV.pstr "banana")) ∧
    lowerStr "banana" ≠ lowerStr "company" := by
  refine ⟨by decide, by decide⟩

/-- Claim C7 (amended): the `parent_field` component returned by
`decide_new_field` is either `None`, or a string whose lowercase form is not
`'none'`, `'null'` or `''` (those three are normalized to `None`), or a
non-string service value passed through unchanged.  It is NOT checked
against the known attributes. -/
theorem decide_new_field_parent_c7 (svc : Option (Option PyV × Option PyV))
    (query : String) (known_fields : List String) :
    (FreeQueryV3.decide_new_field svc query known_fields).2 = none ∨
    (∃ p, (FreeQueryV3.decide_new_field svc query known_fields).2 = some (PyV.pstr p) ∧
      lowerStr p ≠ "none" ∧ lowerStr p ≠ "null" ∧ lowerStr p ≠ "") ∨
    (∃ n, (FreeQueryV3.decide_new_field svc query known_fields).2 = some (PyV.pnum n)) := by
  match svc with
  | none => left; rfl
  | some (nf, pf) =>
    by_cases htr : pyTruthy nf = false
    · left
      simp [FreeQueryV3.decide_new_field, htr]
    · match pf with
      | none =>
        left
        simp [FreeQueryV3.decide_new_field, htr]
      | some (PyV.pnum n) =>
        right; right
        exact ⟨n, by simp [FreeQueryV3.decide_new_field, htr]⟩
      | some (PyV.pstr p) =>
        by_cases hp : lowerStr p = "none" ∨ lowerStr p = "null" ∨ lowerStr p = ""
        · left
          simp [FreeQueryV3.decide_new_field, htr, hp]
        · right; left
          have hp2 := hp
          push_neg at hp2
          exact ⟨p, by simp [FreeQueryV3.decide_new_field, htr, hp], hp2.1, hp2.2.1, hp2.2.2⟩

/-! ## Theorems for claim C5 -/

/-- Counterexample to claim C5 as stated: in the `free_query_v3` executor the
retried statement is not guarded, so when both the original and the repaired
statement fail the `sqlite3.Error` PROPAGATES out of the executor instead of
being swallowed with an empty result set. -/
theorem execute_sql_cx_c5 :
    FreeQueryV3.execute_generated_sql
        (fun _ => (Except.error "no such table" : Except String (List String)))
        "SELECT x FROM t"
      = Except.error "no such table" := by
  rfl

/-- Claim C5 (amended): in the `query_processor` executor, when executing the
cleaned SQL fails with a sqlite error, exactly one textual repair
(`fixSql`) is attempted and retried exactly once — the final result is
determined by that single retry — and when the retried statement also fails
the error is swallowed and the executor returns the empty result set instead
of crashing the caller.  In the `free_query_v3` executor the second failure
propagates. -/
theorem execute_sql_retry_c5 {ρ : Type} (ex : String → Except String (List ρ))
    (sql_code : String) (e : String)
    (hfail : ex (cleanSql sql_code) = Except.error e) :
    QueryProcessor.execute_generated_sql ex sql_code
        = QueryProcessor.repairBranch ex (cleanSql sql_code) ∧
    (∀ e2, ex (fixSql (cleanSql sql_code)) = Except.error e2 →
      QueryProcessor.execute_generated_sql ex sql_code = []) := by
  have hmain : QueryProcessor.execute_generated_sql ex sql_code
      = QueryProcessor.repairBranch ex (cleanSql sql_code) := by
    unfold QueryProcessor.execute_generated_sql
    cases hcnt : ex ("SELECT COUNT(*) FROM " ++ TABLE_NAME) with
    | error e0 => rfl
    | ok cnt => simp [hfail]
  refine ⟨hmain, fun e2 h2 => ?_⟩
  rw [hmain]
  unfold QueryProcessor.repairBranch
  rw [h2]

/-- Witness for the amended C5 theorem: an oracle on which every statement
fails; the executor returns `[]` rather than raising. -/
theorem execute_sql_retry_c5_witness :
    QueryProcessor.execute_generated_sql
        (fun _ => (Except.error "bad" : Except String (List String)))
        "SELECT x FROM t"
      = [] :=
  (execute_sql_retry_c5 (fun _ => (Except.error "bad" : Except String (List String)))
      "SELECT x FROM t" "bad" rfl).2 "bad" rfl

/-! ## Dict lemmas -/

theorem dictHasKey_append {ν : Type} (d e : List (String × ν)) (k : String) :
    dictHasKey (d ++ e) k = (dictHasKey d k || dictHasKey e k) := by
  simp [dictHasKey, List.any_append]

theorem dictHasKey_of_mem {ν : Type} {d : List (String × ν)} {k : String} {v : ν}
    (h : (k, v) ∈ d) : dictHasKey d k = true := by
  simp only [dictHasKey, List.any_eq_true]
  exact ⟨(k, v), h, by simp⟩

theorem dictHasKey_dictSet {ν : Type} (d : List (String × ν)) (k k2 : String) (v : ν)
    (h : dictHasKey d k2 = true) : dictHasKey (dictSet d k v) k2 = true := by
  unfold dictSet
  by_cases hk : dictHasKey d k
  · rw [if_pos hk]
    simp only [dictHasKey, List.any_eq_true] at h ⊢
    rcases h with ⟨kv, hmem, hkey⟩
    by_cases hkk : kv.1 == k
    · refine ⟨(k, v), List.mem_map.mpr ⟨kv, hmem, by simp [hkk]⟩, ?_⟩
      have h1 : kv.1 = k := by simpa using hkk
      have h2 : kv.1 = k2 := by simpa using hkey
      simp [← h1, h2]
    · exact ⟨kv, List.mem_map.mpr ⟨kv, hmem, by simp [hkk]⟩, hkey⟩
  · rw [if_neg hk, dictHasKey_append, h]
    rfl

theorem find?_map_set_self {ν : Type} (k : String) (v : ν) :
    ∀ (d : List (String × ν)), dictHasKey d k = true →
      (d.map (fun kv => if kv.1 == k then (k, v) else kv)).find?
          (fun kv => kv.1 == k) = some (k, v)
  | [], h => by simp [dictHasKey] at h
  | kv :: rest, h => by
    by_cases hkk : (kv.1 == k) = true
    · rw [List.map_cons, if_pos hkk]
      exact List.find?_cons_of_pos _ (by simp)
    · have hkkf : (kv.1 == k) = false := by
        cases hb : (kv.1 == k) <;> simp [hb] at hkk ⊢
      have hrest : dictHasKey rest k = true := by
        simp only [dictHasKey, List.any_cons, hkkf, Bool.false_or] at h
        exact h
      rw [List.map_cons, if_neg hkk, List.find?_cons, hkkf]
      simp only [cond_false]
      exact find?_map_set_self k v rest hrest

theorem dictFind_dictSet_self {ν : Type} (d : List (String × ν)) (k : String) (v : ν) :
    dictFind (dictSet d k v) k = some v := by
  unfold dictSet
  by_cases hk : dictHasKey d k
  · rw [if_pos hk]
    unfold dictFind
    rw [find?_map_set_self k v d hk]
    rfl
  · rw [if_neg hk]
    unfold dictFind
    have hnone : d.find? (fun kv => kv.1 == k) = none := by
      rw [List.find?_eq_none]
      intro kv hmem hkey
      apply hk
      simp only [dictHasKey, List.any_eq_true]
      exact ⟨kv, hmem, hkey⟩
    rw [List.find?_append, hnone]
    simp

theorem hasKey_foldAdd_mono (fields : List String) :
    ∀ (acc : Rec) (k : String), dictHasKey acc k = true →
      dictHasKey (fields.foldl
        (fun acc f => if dictHasKey acc f then acc else acc ++ [(f, none)]) acc) k = true := by
  induction fields with
  | nil => intro acc k h; exact h
  | cons f rest ih =>
    intro acc k h
    simp only [List.foldl_cons]
    apply ih
    by_cases hf : dictHasKey acc f
    · rwa [if_pos hf]
    · rw [if_neg hf, dictHasKey_append, h]
      rfl

theorem hasKey_foldAdd (fields : List String) :
    ∀ (acc : Rec) (f : String), f ∈ fields →
      dictHasKey (fields.foldl
        (fun acc f => if dictHasKey acc f then acc else acc ++ [(f, none)]) acc) f = true := by
  induction fields with
  | nil => intro acc f h; cases h
  | cons f0 rest ih =>
    intro acc f h
    simp only [List.foldl_cons]
    rcases List.mem_cons.mp h with h | h
    · subst h
      apply hasKey_foldAdd_mono
      by_cases hf : dictHasKey acc f
      · rwa [if_pos hf]
      · rw [if_neg hf, dictHasKey_append]
        simp [dictHasKey]
    · exact ih _ f h

/-! ## Theorems for claim C3 -/

/-- Counterexample to claim C3 as stated: when the service call raises, the
failure record is `{field: None for field in fields}` and does NOT contain
the `'clause'` key, contradicting "still including the clause text". -/
theorem extract_fields_cx_c3 :
    FreeQueryV3.extract_fields_from_clause (fun _ => none) "0.5" "c" ["f"]
        = [("f", none)] ∧
    dictHasKey (FreeQueryV3.extract_fields_from_clause (fun _ => none) "0.5" "c" ["f"])
        "clause" = false := by
  refine ⟨rfl, by decide⟩

/-- Claim C3 (amended): `extract_fields_from_clause` always returns a record
containing every requested field name as a key EXCEPT in the failure case,
where the record is exactly `{field: None for field in fields}` with no
`'clause'` key; on success the key `'clause'` maps to the clause text that
was sent to the service, which is the input clause with the
`" zebra percentage: <random>"` marker appended (not the input clause
itself); and extraction is per-clause: a batch maps each clause
independently, so one clause's failure cannot affect the other records. -/
theorem extract_fields_c3 (svc : String → Option Rec) (z clause : String)
    (fields : List String) :
    (svc (clause ++ " zebra percentage: " ++ z) = none →
      FreeQueryV3.extract_fields_from_clause svc z clause fields
        = fields.map (fun f => (f, none))) ∧
    (∀ res, svc (clause ++ " zebra percentage: " ++ z) = some res →
      (∀ f ∈ fields,
        dictHasKey (FreeQueryV3.extract_fields_from_clause svc z clause fields) f = true) ∧
      dictFind (FreeQueryV3.extract_fields_from_clause svc z clause fields) "clause"
        = some (some (PyV.pstr (clause ++ " zebra percentage: " ++ z)))) ∧
    (∀ (clauses : List String) (i : Nat) (h : i < clauses.length),
      (clauses.map (fun c => FreeQueryV3.extract_fields_from_clause svc z c fields)).get
          ⟨i, by simpa using h⟩
        = FreeQueryV3.extract_fields_from_clause svc z (clauses.get ⟨i, h⟩) fields) := by
  refine ⟨?_, ?_, ?_⟩
  · intro hnone
    simp only [FreeQueryV3.extract_fields_from_clause, hnone]
  · intro res hres
    constructor
    · intro f hf
      simp only [FreeQueryV3.extract_fields_from_clause, hres]
      exact dictHasKey_dictSet _ _ _ _ (hasKey_foldAdd fields res f hf)
    · simp only [FreeQueryV3.extract_fields_from_clause, hres]
      exact dictFind_dictSet_self _ _ _
  · intro clauses i h
    simp [List.get_eq_getElem, List.getElem_map]

/-- Witness for the amended C3 theorem: success path at a concrete oracle,
the record keeps the requested key and maps `'clause'` to the mutated
clause text. -/
theorem extract_fields_c3_witness :
    dictHasKey
        (FreeQueryV3.extract_fields_from_clause
          (fun _ => some [("g", some (PyV.pnum 7))]) "0.5" "c" ["f"]) "f" = true ∧
    dictFind
        (FreeQueryV3.extract_fields_from_clause
          (fun _ => some [("g", some (PyV.pnum 7))]) "0.5" "c" ["f"]) "clause"
      = some (some (PyV.pstr ("c" ++ " zebra percentage: " ++ "0.5"))) :=
  ⟨((extract_fields_c3 (fun _ => some [("g", some (PyV.pnum 7))]) "0.5" "c" ["f"]).2.1
      [("g", some (PyV.pnum 7))] rfl).1 "f" (by decide),
   ((extract_fields_c3 (fun _ => some [("g", some (PyV.pnum 7))]) "0.5" "c" ["f"]).2.1
      [("g", some (PyV.pnum 7))] rfl).2⟩

/-! ## Theorems for claim C9 -/

/-- Counterexample to claim C9 as stated: with no samples at all there is no
strict numeric or date majority, so the claim demands `TEXT`; but the column
name `"fee"` triggers the name-based prior the claim omits, and the code
returns `REAL`. -/
theorem infer_type_cx_c9 :
    QueryProcessor.infer_sql_column_type [] "fee" = "REAL" ∧
    ¬ 2 * numericCount [] > nonNullCount [] ∧
    ¬ 2 * dateCount [] > nonNullCount [] := by
  refine ⟨by decide, by decide, by decide⟩

/-- Claim C9 (amended): the inferencer never raises and returns exactly one
of `REAL`, `DATE`, `TEXT`; it returns `REAL` when a strict majority of the
non-null samples are numeric, otherwise `DATE` when a strict majority parse
as dates, and otherwise falls back to name-based hints — `REAL` if the
lowercased column name contains a numeric indicator, else `DATE` if it
contains a date indicator, else `TEXT`.  Ties (exactly half) fail the strict
majority tests and fall through to the name-based hints. -/
theorem infer_sql_column_type_c9 (values : List (Option PyV)) (column_name : String) :
    (QueryProcessor.infer_sql_column_type values column_name = "REAL" ∨
     QueryProcessor.infer_sql_column_type values column_name = "DATE" ∨
     QueryProcessor.infer_sql_column_type values column_name = "TEXT") ∧
    (2 * numericCount values > nonNullCount values →
      QueryProcessor.infer_sql_column_type values column_name = "REAL") ∧
    (¬ 2 * numericCount values > nonNullCount values →
     2 * dateCount values > nonNullCount values →
      QueryProcessor.infer_sql_column_type values column_name = "DATE") ∧
    (¬ 2 * numericCount values > nonNullCount values →
     ¬ 2 * dateCount values > nonNullCount values →
     numeric_indicators.any (fun ind => strContains (lowerStr column_name) ind) = false →
     date_indicators.any (fun ind => strContains (lowerStr column_name) ind) = false →
      QueryProcessor.infer_sql_column_type values column_name = "TEXT") := by
  unfold QueryProcessor.infer_sql_column_type
  refine ⟨?_, ?_, ?_, ?_⟩
  · split
    · exact Or.inl rfl
    · split
      · exact Or.inr (Or.inl rfl)
      · split
        · exact Or.inl rfl
        · split
          · exact Or.inr (Or.inl rfl)
          · exact Or.inr (Or.inr rfl)
  · intro h
    rw [if_pos h]
  · intro h1 h2
    rw [if_neg h1, if_pos h2]
  · intro h1 h2 h3 h4
    rw [if_neg h1, if_neg h2, h3, h4]
    rfl

/-- Witness for the amended C9 theorem: a single numeric sample is a strict
majority, giving `REAL`. -/
theorem infer_sql_column_type_c9_witness :
    QueryProcessor.infer_sql_column_type [some (PyV.pstr "3.5")] "x" = "REAL" :=
  (infer_sql_column_type_c9 [some (PyV.pstr "3.5")] "x").2.1 (by decide)

/-! ## Key-set lemmas for the table store -/

theorem dictHasKey_by_keys {ν ν2 : Type} (d : List (String × ν)) (e : List (String × ν2))
    (k : String) (h : d.map Prod.fst = e.map Prod.fst) :
    dictHasKey d k = dictHasKey e k := by
  have key : ∀ (μ : Type) (l : List (String × μ)),
      dictHasKey l k = (l.map Prod.fst).any (fun x => x == k) := by
    intro μ l
    induction l with
    | nil => rfl
    | cons kv rest ih =>
      simp only [dictHasKey, List.any_cons, List.map_cons] at ih ⊢
      rw [ih]
  rw [key ν d, key ν2 e, h]

theorem keys_dictSet {ν : Type} (d : List (String × ν)) (k : String) (v : ν) :
    (dictSet d k v).map Prod.fst =
      if dictHasKey d k then d.map Prod.fst else d.map Prod.fst ++ [k] := by
  unfold dictSet
  by_cases h : dictHasKey d k
  · rw [if_pos h, if_pos h, List.map_map]
    apply List.map_congr_left
    intro kv hmem
    by_cases hk : (kv.1 == k) = true
    · simp only [Function.comp, hk, if_pos]
      exact (show kv.1 = k by simpa using hk).symm
    · simp [Function.comp, hk]
  · rw [if_neg h, if_neg h, List.map_append]
    rfl

theorem schemaFold_none (inferT : List PyV → String → String) (records : List Rec) :
    ∀ ks : List String, ks.foldl (schemaFoldStep inferT records) none = none := by
  intro ks
  induction ks with
  | nil => rfl
  | cons col rest ih => exact ih

/-- The schema fold relates runs with different oracles and different later
records: failure agrees, the sanitized-name list agrees and the schema key
list agrees. -/
theorem buildSchema_rel (inferT inferT2 : List PyV → String → String)
    (records records2 : List Rec) :
    ∀ (ks : List String) (s s2 : List (String × String)) (m : List String),
      s.map Prod.fst = s2.map Prod.fst →
      (ks.foldl (schemaFoldStep inferT records) (some (s, m)) = none ∧
        ks.foldl (schemaFoldStep inferT2 records2) (some (s2, m)) = none) ∨
      (∃ t t2 mm, ks.foldl (schemaFoldStep inferT records) (some (s, m)) = some (t, mm) ∧
        ks.foldl (schemaFoldStep inferT2 records2) (some (s2, m)) = some (t2, mm) ∧
        t.map Prod.fst = t2.map Prod.fst) := by
  intro ks
  induction ks with
  | nil =>
    intro s s2 m hkeys
    right
    exact ⟨s, s2, m, rfl, rfl, hkeys⟩
  | cons col rest ih =>
    intro s s2 m hkeys
    simp only [List.foldl_cons, schemaFoldStep]
    cases hsan : sanitize_field_name col with
    | none =>
      left
      constructor <;> exact schemaFold_none _ _ rest
    | some sc =>
      have hkeq : dictHasKey s sc = dictHasKey s2 sc := dictHasKey_by_keys _ _ _ hkeys
      have hkeys2 : (dictSet s sc (inferT (records.filterMap (fun r => pyGet r col)) col)).map
            Prod.fst
          = (dictSet s2 sc (inferT2 (records2.filterMap (fun r => pyGet r col)) col)).map
            Prod.fst := by
        rw [keys_dictSet, keys_dictSet, hkeq, hkeys]
      exact ih _ _ _ hkeys2

theorem finishStore_schema_keys (schema fmap : List (String × String))
    (sk2 : List String) (useP : Bool) (recs : List Rec) :
    (finishStore schema fmap sk2 useP recs).schema.map Prod.fst =
      if dictHasKey schema "clause" then schema.map Prod.fst
      else schema.map Prod.fst ++ ["clause"] := by
  unfold finishStore
  by_cases h : dictHasKey schema "clause"
  · simp [h]
  · simp [h, List.map_append]

theorem schemaFold_keys_origin (inferT : List PyV → String → String) (records : List Rec) :
    ∀ (ks : List String) (s : List (String × String)) (m : List String)
      (t : List (String × String)) (mm : List String),
      ks.foldl (schemaFoldStep inferT records) (some (s, m)) = some (t, mm) →
      ∀ kk ∈ t.map Prod.fst,
        kk ∈ s.map Prod.fst ∨ ∃ k0 ∈ ks, sanitize_field_name k0 = some kk := by
  intro ks
  induction ks with
  | nil =>
    intro s m t mm hfold kk hkk
    simp only [List.foldl_nil, Option.some.injEq, Prod.mk.injEq] at hfold
    rw [← hfold.1] at hkk
    exact Or.inl hkk
  | cons col rest ih =>
    intro s m t mm hfold kk hkk
    simp only [List.foldl_cons, schemaFoldStep] at hfold
    cases hsan : sanitize_field_name col with
    | none =>
      rw [hsan] at hfold
      rw [schemaFold_none] at hfold
      cases hfold
    | some sc =>
      rw [hsan] at hfold
      rcases ih _ _ _ _ hfold kk hkk with hmem | ⟨k0, hk0, hk0s⟩
      · rw [keys_dictSet] at hmem
        by_cases hck : dictHasKey s sc
        · rw [if_pos hck] at hmem
          exact Or.inl hmem
        · rw [if_neg hck] at hmem
          rcases List.mem_append.mp hmem with hmem | hmem
          · exact Or.inl hmem
          · right
            refine ⟨col, by simp, ?_⟩
            have hks : kk = sc := by simpa using hmem
            rw [hsan, hks]
      · exact Or.inr ⟨k0, by simp [hk0], hk0s⟩

/-! ## Theorems for claim C10 -/

/-- Claim C10 (confirmed): `store_records_sql` (1) raises `IndexError` on an
empty record batch before any table is dropped or created; (2) determines
the created table's column-name set solely from the keys of the first
record (plus `clause` and, when a parent is given, `parent_field`) — two
calls sharing the first record but differing in the later records and in
the type oracle produce the same column-name list; (3) every created column
is a sanitized first-record key, `clause`, or `parent_field`; and (4) the
inserted row of a record depends only on the record's values at the sample
keys, `parent_field` and `clause` — values under keys appearing only in
later records are silently not stored. -/
theorem store_records_sql_c10 :
    (∀ (inferT : List PyV → String → String) (p : Option String),
      FreeQueryV3.store_records_sql inferT [] p = none) ∧
    (∀ (inferT inferT2 : List PyV → String → String) (sample : Rec)
        (rest rest2 : List Rec) (p : Option String),
      Option.map (fun res => res.schema.map Prod.fst)
          (FreeQueryV3.store_records_sql inferT (sample :: rest) p) =
        Option.map (fun res => res.schema.map Prod.fst)
          (FreeQueryV3.store_records_sql inferT2 (sample :: rest2) p)) ∧
    (∀ (inferT : List PyV → String → String) (sample : Rec) (rest : List Rec)
        (p : Option String) (res : StoreResult),
      FreeQueryV3.store_records_sql inferT (sample :: rest) p = some res →
      ∀ kk ∈ res.schema.map Prod.fst,
        (∃ k0 ∈ sample.map Prod.fst, sanitize_field_name k0 = some kk) ∨
        kk = "clause" ∨ kk = "parent_field") ∧
    (∀ (sampleKeys2 : List String) (useParent : Bool) (r r2 : Rec),
      (∀ k, k ∈ sampleKeys2 ∨ k = "parent_field" ∨ k = "clause" →
        pyGet r k = pyGet r2 k) →
      rowOf sampleKeys2 useParent r = rowOf sampleKeys2 useParent r2) := by
  refine ⟨fun _ _ => rfl, ?_, ?_, ?_⟩
  · -- column names do not depend on the later records or the type oracle
    intro inferT inferT2 sample rest rest2 p
    simp only [FreeQueryV3.store_records_sql]
    rcases buildSchema_rel inferT inferT2 (sample :: rest) (sample :: rest2)
        (sample.map Prod.fst) [] [] [] rfl with ⟨hn1, hn2⟩ | ⟨t, t2, mm, h1, h2, hkeys⟩
    · unfold buildSchema
      rw [hn1, hn2]
    · unfold buildSchema
      rw [h1, h2]
      have hhk : ∀ k, dictHasKey t k = dictHasKey t2 k :=
        fun k => dictHasKey_by_keys _ _ _ hkeys
      cases p with
      | none =>
        simp only [Option.map_some']
        rw [finishStore_schema_keys, finishStore_schema_keys, hhk, hkeys]
      | some pv =>
        simp only [Option.map_some']
        by_cases hpv : (pv != "") = true
        · rw [if_pos hpv, if_pos hpv]
          cases hsan : sanitize_field_name pv with
          | none => rfl
          | some sp =>
            simp only [Option.map_some']
            rw [finishStore_schema_keys, finishStore_schema_keys]
            have hk2 : (dictSet t "parent_field" "TEXT").map Prod.fst =
                (dictSet t2 "parent_field" "TEXT").map Prod.fst := by
              rw [keys_dictSet, keys_dictSet, hhk, hkeys]
            rw [dictHasKey_by_keys _ _ _ hk2, hk2]
        · rw [if_neg hpv, if_neg hpv]
          simp only [Option.map_some']
          rw [finishStore_schema_keys, finishStore_schema_keys, hhk, hkeys]
  · -- every created column comes from the first record (or clause/parent_field)
    intro inferT sample rest p res hstore kk hkk
    simp only [FreeQueryV3.store_records_sql] at hstore
    cases hb : buildSchema inferT (sample :: rest) (sample.map Prod.fst) with
    | none =>
      rw [hb] at hstore
      cases hstore
    | some sm =>
      rcases sm with ⟨schema1, mp⟩
      rw [hb] at hstore
      have horigin : ∀ x ∈ schema1.map Prod.fst,
          (∃ k0 ∈ sample.map Prod.fst, sanitize_field_name k0 = some x) := by
        intro x hx
        rcases schemaFold_keys_origin inferT (sample :: rest) (sample.map Prod.fst)
            [] [] schema1 mp hb x hx with hmem | hex
        · cases hmem
        · exact hex
      have hfin : ∀ (sch : List (String × String)) (fm : List (String × String))
          (sk : List String) (u : Bool) (rs : List Rec),
          (∀ x ∈ sch.map Prod.fst,
            (∃ k0 ∈ sample.map Prod.fst, sanitize_field_name k0 = some x) ∨
              x = "clause" ∨ x = "parent_field") →
          res = finishStore sch fm sk u rs →
          (∃ k0 ∈ sample.map Prod.fst, sanitize_field_name k0 = some kk) ∨
            kk = "clause" ∨ kk = "parent_field" := by
        intro sch fm sk u rs hsch hres
        rw [hres, finishStore_schema_keys] at hkk
        by_cases hc : dictHasKey sch "clause"
        · rw [if_pos hc] at hkk
          exact hsch kk hkk
        · rw [if_neg hc] at hkk
          rcases List.mem_append.mp hkk with hkk | hkk
          · exact hsch kk hkk
          · exact Or.inr (Or.inl (by simpa using hkk))
      cases p with
      | none =>
        exact hfin schema1 _ _ _ _ (fun x hx => Or.inl (horigin x hx))
          (by cases hstore; rfl)
      | some pv =>
        by_cases hpv : (pv != "") = true
        · simp only [hpv, if_true] at hstore
          cases hsan : sanitize_field_name pv with
          | none =>
            rw [hsan] at hstore
            cases hstore
          | some sp =>
            rw [hsan] at hstore
            refine hfin (dictSet schema1 "parent_field" "TEXT") _ _ _ _ ?_
              (by cases hstore; rfl)
            intro x hx
            rw [keys_dictSet] at hx
            by_cases hpk : dictHasKey schema1 "parent_field"
            · rw [if_pos hpk] at hx
              exact Or.inl (horigin x hx)
            · rw [if_neg hpk] at hx
              rcases List.mem_append.mp hx with hx | hx
              · exact Or.inl (horigin x hx)
              · exact Or.inr (Or.inr (by simpa using hx))
        · simp only [] at hstore
          rw [if_neg hpv] at hstore
          exact hfin schema1 _ _ _ _ (fun x hx => Or.inl (horigin x hx))
            (by cases hstore; rfl)
  · -- the stored row reads only sample keys, parent_field and clause
    intro sk2 useP r r2 hagree
    unfold rowOf
    have hmap : sk2.map (fun c => pyGet r c) = sk2.map (fun c => pyGet r2 c) :=
      List.map_congr_left (fun c hc => hagree c (Or.inl hc))
    rw [hmap, hagree "parent_field" (Or.inr (Or.inl rfl)),
      hagree "clause" (Or.inr (Or.inr rfl))]

/-- Witness for the C10 theorem: the empty batch raises, and two records
agreeing on the sample key (`b` vs `c` extras differ) produce identical
rows. -/
theorem store_records_sql_c10_witness :
    FreeQueryV3.store_records_sql (fun _ _ => "TEXT") [] none = none ∧
    rowOf ["a"] false [("a", some (PyV.pnum 1)), ("b", some (PyV.pnum 2))]
      = rowOf ["a"] false [("a", some (PyV.pnum 1)), ("c", some (PyV.pnum 3))] :=
  ⟨store_records_sql_c10.1 (fun _ _ => "TEXT") none,
    store_records_sql_c10.2.2.2 ["a"] false _ _ (fun k hk => by
      rcases hk with hk | hk | hk
      · have hk2 : k = "a" := by simpa using hk
        subst hk2; rfl
      · subst hk; rfl
      · subst hk; rfl)⟩

/-! ## Replace lemmas -/

theorem replaceLF_not_contains (r n : List Char) :
    ∀ (f : Nat) (h : List Char), occursIn n h = false → replaceLF r n f h = h := by
  intro f
  induction f with
  | zero => intro h _; rfl
  | succ f ih =>
    intro h hocc
    cases h with
    | nil => rfl
    | cons c t =>
      simp only [occursIn, Bool.or_eq_false_iff] at hocc
      simp only [replaceLF, hocc.1, Bool.and_false, Bool.false_eq_true, if_false]
      rw [ih t hocc.2]

theorem replaceL_not_contains (n r h : List Char) (hocc : occursIn n h = false) :
    replaceL n r h = h :=
  replaceLF_not_contains r n h.length h hocc

theorem replaceS_not_contains (n r s : String) (hocc : strContains s n = false) :
    replaceS n r s = s := by
  unfold replaceS
  rw [replaceL_not_contains _ _ _ hocc]

theorem replaceLF_contains (r n : List Char) (hne : n ≠ []) :
    ∀ (f : Nat) (h : List Char), h.length ≤ f → occursIn n h = true →
      ∃ pre post, replaceLF r n f h = pre ++ r ++ post := by
  intro f
  induction f with
  | zero =>
    intro h hlen hocc
    have hh : h = [] := List.length_eq_zero.mp (Nat.le_zero.mp hlen)
    subst hh
    simp only [occursIn, List.isEmpty_iff] at hocc
    exact absurd hocc hne
  | succ f ih =>
    intro h hlen hocc
    cases h with
    | nil =>
      simp only [occursIn, List.isEmpty_iff] at hocc
      exact absurd hocc hne
    | cons c t =>
      by_cases hlw : (!n.isEmpty && leadsWith n (c :: t)) = true
      · refine ⟨[], replaceLF r n f ((c :: t).drop n.length), ?_⟩
        simp [replaceLF, hlw]
      · have hne2 : n.isEmpty = false := by
          cases hn : n with
          | nil => exact absurd hn hne
          | cons a as => rfl
        have hlw2 : leadsWith n (c :: t) = false := by
          cases hl : leadsWith n (c :: t)
          · rfl
          · exact absurd (by simp [hne2, hl]) hlw
        have hocc2 : occursIn n t = true := by
          simp only [occursIn, hlw2, Bool.false_or] at hocc
          exact hocc
        have hlen2 : t.length ≤ f := by
          simpa using Nat.le_of_succ_le_succ hlen
        obtain ⟨pre, post, heq⟩ := ih t hlen2 hocc2
        exact ⟨c :: pre, post, by simp [replaceLF, hlw, heq]⟩

theorem strMk_append (a b : List Char) : String.mk a ++ String.mk b = String.mk (a ++ b) :=
  rfl

theorem replaceS_contains (n r s : String) (hocc : strContains s n = true)
    (hne : n.data ≠ []) :
    ∃ pre post : String, replaceS n r s = pre ++ r ++ post := by
  obtain ⟨pre, post, heq⟩ :=
    replaceLF_contains r.data n.data hne s.data.length s.data (Nat.le_refl _) hocc
  refine ⟨String.mk pre, String.mk post, ?_⟩
  unfold replaceS replaceL
  rw [heq, strMk_append, strMk_append]

theorem leadsWith_append_left (n m l : List Char) (h : leadsWith (n ++ m) l = true) :
    leadsWith n l = true := by
  induction n generalizing l with
  | nil => rfl
  | cons a as ih =>
    cases l with
    | nil => simp [leadsWith] at h
    | cons b bs =>
      simp only [List.cons_append, leadsWith, Bool.and_eq_true] at h ⊢
      exact ⟨h.1, ih bs h.2⟩

theorem occursIn_append_left (n m h : List Char) (hocc : occursIn (n ++ m) h = true) :
    occursIn n h = true := by
  induction h with
  | nil =>
    simp only [occursIn, List.isEmpty_iff] at hocc ⊢
    cases n with
    | nil => rfl
    | cons a as => simp at hocc
  | cons c t ih =>
    simp only [occursIn, Bool.or_eq_true] at hocc ⊢
    rcases hocc with hl | ho
    · exact Or.inl (leadsWith_append_left n m _ hl)
    · exact Or.inr (ih ho)

/-! ## Theorems for claim C8 -/

theorem addGuard_contains (san table sql : String)
    (h : strContains (upperStr sql) "WHERE" = false ∨
      (strContains (upperStr sql) "WHERE" = true ∧ strContains sql "WHERE" = true)) :
    ∃ pre post, addGuard san table sql = pre ++ guardFor san ++ post := by
  unfold addGuard
  rcases h with h | ⟨h1, h2⟩
  · rw [if_pos h]
    refine ⟨"SELECT * FROM " ++ table ++ " WHERE ", "", ?_⟩
    simp [String.append_assoc]
  · rw [if_neg (by simp [h1])]
    obtain ⟨pre, post, heq⟩ :=
      replaceS_contains "WHERE" ("WHERE " ++ guardFor san ++ " AND") sql h2 (by decide)
    refine ⟨pre ++ "WHERE ", " AND" ++ post, ?_⟩
    rw [heq]
    simp [String.append_assoc]

theorem renameFields_id (keys : List String) :
    ∀ s : String, (∀ k ∈ keys, sanitize_field_name k = some k) →
      renameFields keys s = s := by
  induction keys with
  | nil => intro s _; rfl
  | cons k rest ih =>
    intro s h
    have hk := h k (by simp)
    unfold renameFields
    rw [List.foldl_cons, hk]
    simp only [ne_eq, not_true_eq_false, if_false, ite_self]
    have hrest := ih s (fun x hx => h x (by simp [hx]))
    unfold renameFields at hrest
    simpa using hrest

/-- Counterexample to claim C8 as stated: the schema column `company` occurs
in the query, and the service text already contains a `where` clause in
lower case; the case-insensitive membership check sees it, but the
case-sensitive `replace("WHERE", ...)` finds nothing, so the returned SQL
has NO `IS NOT NULL` guard. -/
theorem generate_filter_sql_cx_c8 :
    strContains (lowerStr "show company") (lowerStr "company") = true ∧
    FreeQueryV3.generate_filter_sql (some "select * from clauses where company = 1")
        "show company" [("company", "TEXT")] "clauses"
      = Except.ok "select * from clauses where company = 1" ∧
    strContains "select * from clauses where company = 1" "IS NOT NULL" = false := by
  refine ⟨by decide, by rfl, by decide⟩

/-- Claim C8 (amended): for the default table `clauses` and a schema whose
column names are already sanitized, when some schema column occurs
case-insensitively in the query (the first such column `f`), the returned
SQL contains the `IS NOT NULL` guard on `f` PROVIDED the service text
contains no case-insensitive `WHERE` at all, or contains the exact
upper-case token `WHERE`; a `where` appearing only in another letter case
defeats the guard insertion.  (Side conditions: the guarded text mentions
`FROM` and the table name and has no `SELECT *,` artifact, so the later
post-processing steps leave the guard intact.) -/
theorem generate_filter_sql_guard_c8 (resp query : String)
    (schema : List (String × String)) (f : String)
    (hfind : (schema.map Prod.fst).find?
      (fun k => strContains (lowerStr query) (lowerStr k)) = some f)
    (hsanall : ∀ k ∈ schema.map Prod.fst, sanitize_field_name k = some k)
    (hwhere : strContains (upperStr (stripWs resp)) "WHERE" = false ∨
      (strContains (upperStr (stripWs resp)) "WHERE" = true ∧
        strContains (stripWs resp) "WHERE" = true))
    (hfrom : strContains (upperStr (addGuard f "clauses" (stripWs resp))) "FROM" = true)
    (htab : (splitWs (addGuard f "clauses" (stripWs resp))).any
      (fun part => strContains (lowerStr part) (lowerStr "clauses")) = true)
    (hstar : strContains (addGuard f "clauses" (stripWs resp)) "SELECT *," = false) :
    ∃ pre post, FreeQueryV3.generate_filter_sql (some resp) query schema "clauses"
      = Except.ok (pre ++ guardFor f ++ post) := by
  have hf : f ∈ schema.map Prod.fst := List.mem_of_find?_eq_some hfind
  have hsanf : sanitize_field_name f = some f := hsanall f hf
  have hnone : (schema.map Prod.fst).any (fun k => (sanitize_field_name k).isNone) = false := by
    rw [List.any_eq_false]
    intro x hx
    rw [hsanall x hx]
    simp
  have hsql2 : fixFromTable "clauses" (addGuard f "clauses" (stripWs resp))
      = addGuard f "clauses" (stripWs resp) := by
    unfold fixFromTable
    rw [hfrom, htab]
    simp
  have hstar2 : strContains (addGuard f "clauses" (stripWs resp)) "SELECT *, " = false := by
    cases hh : strContains (addGuard f "clauses" (stripWs resp)) "SELECT *, "
    · rfl
    · exfalso
      have hmono := occursIn_append_left ("SELECT *,".data) (" ".data)
        (addGuard f "clauses" (stripWs resp)).data (by exact hh)
      rw [show occursIn ("SELECT *,".data)
          (addGuard f "clauses" (stripWs resp)).data
        = strContains (addGuard f "clauses" (stripWs resp)) "SELECT *," from rfl,
        hstar] at hmono
      cases hmono
  have hsql3 : fixSelectStar (addGuard f "clauses" (stripWs resp))
      = addGuard f "clauses" (stripWs resp) := by
    unfold fixSelectStar
    rw [replaceS_not_contains _ _ _ hstar, replaceS_not_contains _ _ _ hstar2]
  obtain ⟨pre, post, hg⟩ := addGuard_contains f "clauses" (stripWs resp) hwhere
  refine ⟨pre, post, ?_⟩
  simp only [FreeQueryV3.generate_filter_sql, hfind, hsanf, hnone, Bool.false_eq_true,
    if_false]
  rw [hsql2, hsql3, renameFields_id _ _ hsanall, hg]

/-- Witness for the amended C8 theorem: the service text carries an
upper-case `WHERE`, and the guard on `company` is inserted in front of the
existing condition. -/
theorem generate_filter_sql_guard_c8_witness :
    ∃ pre post, FreeQueryV3.generate_filter_sql
        (some "SELECT * FROM clauses WHERE x = 1") "company info"
        [("company", "TEXT")] "clauses"
      = Except.ok (pre ++ guardFor "company" ++ post) :=
  generate_filter_sql_guard_c8 "SELECT * FROM clauses WHERE x = 1" "company info"
    [("company", "TEXT")] "company" (by decide)
    (by intro k hk; have hk2 : k = "company" := by simpa using hk
        rw [hk2]; rfl)
    (Or.inr ⟨by decide, by decide⟩) (by decide) (by decide) (by decide)

/-! ## Merge lemmas -/

section MergeLemmas

variable {α ρ : Type} [DecidableEq α]

theorem sqlEq_symm (a b : Option α) : sqlEq a b = sqlEq b a := by
  cases a <;> cases b <;> simp [sqlEq] <;> exact ⟨fun h => h.symm, fun h => h.symm⟩

theorem sqlEq_true_iff (a b : Option α) :
    sqlEq a b = true ↔ ∃ x, a = some x ∧ b = some x := by
  cases a <;> cases b <;> simp [sqlEq]
  exact ⟨fun h => h.symm, fun h => h.symm⟩

theorem sqlEq_some_self (x : α) : sqlEq (some x) (some x) = true := by
  simp [sqlEq]

theorem updRow_mclause (s : SRow α) (r : MRow α ρ) :
    (updRow s r).mclause = r.mclause := by
  cases hv : s.svalue
  · simp [updRow, hv]
  · simp only [updRow, hv]
    split <;> rfl

theorem updRow_rest (s : SRow α) (r : MRow α ρ) : (updRow s r).rest = r.rest := by
  cases hv : s.svalue
  · simp [updRow, hv]
  · simp only [updRow, hv]
    split <;> rfl

theorem updRow_of_svalue_none (s : SRow α) (r : MRow α ρ) (h : s.svalue = none) :
    updRow s r = r := by
  simp [updRow, h]

theorem updRow_of_no_match (s : SRow α) (r : MRow α ρ)
    (h : sqlEq r.mclause s.sclause = false) : updRow s r = r := by
  cases hv : s.svalue
  · simp [updRow, hv]
  · simp [updRow, hv, h]

theorem setVP_updRow (s : SRow α) (r : MRow α ρ) (vp : α × Option α) :
    setVP (updRow s r) vp = setVP r vp := by
  cases hv : s.svalue
  · simp [updRow, hv]
  · simp only [updRow, hv]
    split <;> rfl

theorem applyAll_nil (r : MRow α ρ) : applyAll ([] : List (SRow α)) r = r := rfl

theorem applyAll_cons (s : SRow α) (t : List (SRow α)) (r : MRow α ρ) :
    applyAll (s :: t) r = applyAll t (updRow s r) := rfl

theorem applyAll_mclause (L : List (SRow α)) :
    ∀ r : MRow α ρ, (applyAll L r).mclause = r.mclause := by
  induction L with
  | nil => intro r; rfl
  | cons s t ih =>
    intro r
    rw [applyAll_cons, ih (updRow s r), updRow_mclause]

theorem applyAll_rest (L : List (SRow α)) :
    ∀ r : MRow α ρ, (applyAll L r).rest = r.rest := by
  induction L with
  | nil => intro r; rfl
  | cons s t ih =>
    intro r
    rw [applyAll_cons, ih (updRow s r), updRow_rest]

/-- Characterization of replaying all updates on one row: the last matching
staging row with a non-`NULL` value wins; with no match the row is
untouched. -/
theorem applyAll_char (L : List (SRow α)) :
    ∀ r : MRow α ρ, applyAll L r =
      match lastMatch L r.mclause with
      | none => r
      | some vp => setVP r vp := by
  induction L with
  | nil => intro r; rfl
  | cons s t ih =>
    intro r
    rw [applyAll_cons, ih (updRow s r), updRow_mclause]
    cases hl : lastMatch t r.mclause with
    | some vp =>
      simp only [lastMatch, hl]
      exact setVP_updRow s r vp
    | none =>
      simp only [lastMatch, hl]
      unfold updRow
      cases hv : s.svalue with
      | none => rfl
      | some v =>
        by_cases hc : sqlEq r.mclause s.sclause = true
        · rw [hc]
          simp only [if_true]
          rfl
        · rw [Bool.not_eq_true] at hc
          rw [hc]
          simp

theorem containsClause_map_updRow (M : List (MRow α ρ)) (s : SRow α) (c : Option α) :
    containsClause (M.map (updRow s)) c = containsClause M c := by
  unfold containsClause
  rw [List.any_map]
  congr 1
  funext r
  simp [Function.comp, updRow_mclause]

theorem containsClause_append (M N : List (MRow α ρ)) (c : Option α) :
    containsClause (M ++ N) c = (containsClause M c || containsClause N c) := by
  simp [containsClause, List.any_append]

theorem mergeStep_contains_mono (d : ρ) (M : List (MRow α ρ)) (s : SRow α)
    (c : Option α) (h : containsClause M c = true) :
    containsClause (mergeStep d M s) c = true := by
  cases hv : s.svalue with
  | none => simpa [mergeStep, hv] using h
  | some v =>
    simp only [mergeStep, hv]
    split
    · rwa [containsClause_map_updRow]
    · rw [containsClause_append, h]
      rfl

theorem merge_contains_mono (d : ρ) (L : List (SRow α)) :
    ∀ (M : List (MRow α ρ)) (c : Option α), containsClause M c = true →
      containsClause (QueryProcessor.merge_new_fields_to_main_table d L M) c = true := by
  induction L with
  | nil => intro M c h; exact h
  | cons s t ih =>
    intro M c h
    exact ih (mergeStep d M s) c (mergeStep_contains_mono d M s c h)

theorem contains_after_merge (d : ρ) (L : List (SRow α)) :
    ∀ (M : List (MRow α ρ)) (s : SRow α) (v : α) (c : α), s ∈ L →
      s.svalue = some v → s.sclause = some c →
      containsClause (QueryProcessor.merge_new_fields_to_main_table d L M) (some c) = true := by
  induction L with
  | nil => intro M s v c h; cases h
  | cons s0 t ih =>
    intro M s v c hmem hv hc
    rcases List.mem_cons.mp hmem with heq | hmem2
    · subst heq
      apply merge_contains_mono d t
      simp only [mergeStep, hv]
      by_cases hcont : containsClause M s.sclause = true
      · rw [if_pos hcont, containsClause_map_updRow]
        rwa [hc] at hcont
      · rw [if_neg hcont, containsClause_append]
        have hone : containsClause [(⟨s.sclause, some v, s.sparent, d⟩ : MRow α ρ)]
            (some c) = true := by
          simp [containsClause, hc, sqlEq_some_self]
        rw [hone]
        simp
    · exact ih (mergeStep d M s0) s v c hmem2 hv hc

theorem mergeStep_of_contained (d : ρ) (M : List (MRow α ρ)) (s : SRow α)
    (h : s.svalue.isSome = true → containsClause M s.sclause = true) :
    mergeStep d M s = M.map (updRow s) := by
  cases hv : s.svalue with
  | none =>
    simp only [mergeStep, hv]
    symm
    rw [List.map_congr_left (fun r _ => updRow_of_svalue_none s r hv)]
    exact List.map_id' M
  | some v =>
    simp only [mergeStep, hv]
    rw [if_pos (h (by rw [hv]; rfl))]

theorem merge_eq_map_applyAll (d : ρ) (L : List (SRow α)) :
    ∀ M : List (MRow α ρ),
      (∀ s ∈ L, s.svalue.isSome = true → containsClause M s.sclause = true) →
      QueryProcessor.merge_new_fields_to_main_table d L M = M.map (applyAll L) := by
  induction L with
  | nil =>
    intro M _
    symm
    rw [List.map_congr_left
      (fun (r : MRow α ρ) _ => (rfl : applyAll ([] : List (SRow α)) r = r))]
    exact List.map_id' M
  | cons s t ih =>
    intro M H
    have hstep : mergeStep d M s = M.map (updRow s) :=
      mergeStep_of_contained d M s (fun hv => H s (by simp) hv)
    show QueryProcessor.merge_new_fields_to_main_table d t (mergeStep d M s)
      = M.map (applyAll (s :: t))
    rw [hstep]
    have H2 : ∀ s2 ∈ t, s2.svalue.isSome = true →
        containsClause (M.map (updRow s)) s2.sclause = true := by
      intro s2 h2 hv2
      rw [containsClause_map_updRow]
      exact H s2 (by simp [h2]) hv2
    rw [ih _ H2, List.map_map]
    apply List.map_congr_left
    intro r _
    rfl

end MergeLemmas

section MergeLemmas2

variable {α ρ : Type} [DecidableEq α]

theorem mergeStep_sets (d : ρ) (M : List (MRow α ρ)) (s : SRow α) (v : α)
    (hv : s.svalue = some v) :
    ∀ r ∈ mergeStep d M s, sqlEq r.mclause s.sclause = true →
      r.newf = some v ∧ r.parent = s.sparent := by
  intro r hr hm
  simp only [mergeStep, hv] at hr
  by_cases hcont : containsClause M s.sclause = true
  · rw [if_pos hcont] at hr
    rcases List.mem_map.mp hr with ⟨r0, hr0, rfl⟩
    rw [updRow_mclause] at hm
    simp [updRow, hv, hm]
  · rw [if_neg hcont] at hr
    rcases List.mem_append.mp hr with hrM | hrN
    · exfalso
      apply hcont
      unfold containsClause
      rw [List.any_eq_true]
      exact ⟨r, hrM, hm⟩
    · have hre : r = ⟨s.sclause, some v, s.sparent, d⟩ := by simpa using hrN
      subst hre
      exact ⟨rfl, rfl⟩

theorem merge_stable (d : ρ) (t : List (SRow α)) :
    ∀ (M : List (MRow α ρ)) (c : Option α) (v : α) (p : Option α),
      lastMatch t c = none →
      (∀ r ∈ M, sqlEq r.mclause c = true → r.newf = some v ∧ r.parent = p) →
      ∀ r ∈ QueryProcessor.merge_new_fields_to_main_table d t M,
        sqlEq r.mclause c = true → r.newf = some v ∧ r.parent = p := by
  induction t with
  | nil => intro M c v p _ hM r hr hm; exact hM r hr hm
  | cons s2 t2 ih =>
    intro M c v p hlm hM r hr hm
    have hlm2 : lastMatch t2 c = none := by
      cases hl2 : lastMatch t2 c with
      | none => rfl
      | some vp => simp [lastMatch, hl2] at hlm
    have hnom : s2.svalue = none ∨ sqlEq c s2.sclause = false := by
      cases hv2 : s2.svalue with
      | none => exact Or.inl rfl
      | some v2 =>
        right
        cases hce : sqlEq c s2.sclause with
        | false => rfl
        | true => simp [lastMatch, hlm2, hv2, hce] at hlm
    have hM2 : ∀ r0 ∈ mergeStep d M s2, sqlEq r0.mclause c = true →
        r0.newf = some v ∧ r0.parent = p := by
      intro r0 hr0 hm0
      cases hv2 : s2.svalue with
      | none =>
        simp only [mergeStep, hv2] at hr0
        exact hM r0 hr0 hm0
      | some v2 =>
        have hnoc : sqlEq c s2.sclause = false := by
          rcases hnom with hvn | hnoc
          · rw [hvn] at hv2; cases hv2
          · exact hnoc
        simp only [mergeStep, hv2] at hr0
        by_cases hcont : containsClause M s2.sclause = true
        · rw [if_pos hcont] at hr0
          rcases List.mem_map.mp hr0 with ⟨r1, hr1, rfl⟩
          rw [updRow_mclause] at hm0
          have hr1c : r1.mclause = c := by
            rcases (sqlEq_true_iff _ _).mp hm0 with ⟨x, hx1, hx2⟩
            rw [hx1, hx2]
          have hnm : sqlEq r1.mclause s2.sclause = false := by
            rw [hr1c]
            exact hnoc
          rw [updRow_of_no_match s2 r1 hnm]
          exact hM r1 hr1 hm0
        · rw [if_neg hcont] at hr0
          rcases List.mem_append.mp hr0 with hrM | hrN
          · exact hM r0 hrM hm0
          · exfalso
            have hr0eq : r0 = ⟨s2.sclause, some v2, s2.sparent, d⟩ := by simpa using hrN
            rw [hr0eq] at hm0
            rw [show (⟨s2.sclause, some v2, s2.sparent, d⟩ : MRow α ρ).mclause = s2.sclause
              from rfl, sqlEq_symm, hnoc] at hm0
            cases hm0
    exact ih (mergeStep d M s2) c v p hlm2 hM2 r hr hm

theorem merge_invariant (d : ρ) (L : List (SRow α)) :
    ∀ M : List (MRow α ρ), ∀ r ∈ QueryProcessor.merge_new_fields_to_main_table d L M,
      ∀ vp, lastMatch L r.mclause = some vp →
        r.newf = some vp.1 ∧ r.parent = vp.2 := by
  induction L with
  | nil =>
    intro M r hr vp hlm
    simp [lastMatch] at hlm
  | cons s t ih =>
    intro M r hr vp hlm
    cases hl : lastMatch t r.mclause with
    | some vp2 =>
      simp only [lastMatch, hl, Option.some.injEq] at hlm
      subst hlm
      exact ih (mergeStep d M s) r hr vp2 hl
    | none =>
      simp only [lastMatch, hl] at hlm
      cases hv : s.svalue with
      | none =>
        simp [hv] at hlm
      | some v =>
        simp only [hv] at hlm
        by_cases hce : sqlEq r.mclause s.sclause = true
        · rw [if_pos hce] at hlm
          have hvp : vp = (v, s.sparent) := by
            injection hlm with h2
            exact h2.symm
          subst hvp
          have hset := mergeStep_sets d M s v hv
          have hrc : r.mclause = s.sclause := by
            rcases (sqlEq_true_iff _ _).mp hce with ⟨x, h1, h2⟩
            rw [h1, h2]
          have hlm3 : lastMatch t s.sclause = none := by
            rw [← hrc]
            exact hl
          exact merge_stable d t (mergeStep d M s) s.sclause v s.sparent hlm3 hset r hr hce
        · rw [if_neg hce] at hlm
          cases hlm

theorem merge_decomp (d : ρ) (L : List (SRow α)) :
    ∀ M : List (MRow α ρ), ∃ T,
      QueryProcessor.merge_new_fields_to_main_table d L M = M.map (applyAll L) ++ T ∧
      ∀ r ∈ T, r.rest = d := by
  induction L with
  | nil =>
    intro M
    refine ⟨[], ?_, by simp⟩
    rw [List.append_nil]
    symm
    rw [List.map_congr_left
      (fun (r : MRow α ρ) _ => (rfl : applyAll ([] : List (SRow α)) r = r))]
    exact List.map_id' M
  | cons s t ih =>
    intro M
    by_cases hup : s.svalue = none ∨ containsClause M s.sclause = true
    · have hstep : mergeStep d M s = M.map (updRow s) := by
        rcases hup with hvn | hcont
        · simp only [mergeStep, hvn]
          symm
          rw [List.map_congr_left (fun r _ => updRow_of_svalue_none s r hvn)]
          exact List.map_id' M
        · exact mergeStep_of_contained d M s (fun _ => hcont)
      obtain ⟨T, hT, hTr⟩ := ih (M.map (updRow s))
      refine ⟨T, ?_, hTr⟩
      rw [show QueryProcessor.merge_new_fields_to_main_table d (s :: t) M
          = QueryProcessor.merge_new_fields_to_main_table d t (mergeStep d M s) from rfl,
        hstep, hT, List.map_map]
      congr 1
    · push_neg at hup
      obtain ⟨hvne, hcont⟩ := hup
      obtain ⟨v, hv⟩ := Option.ne_none_iff_exists'.mp hvne
      have hcontf : containsClause M s.sclause = false := by
        cases hcc : containsClause M s.sclause
        · rfl
        · exact absurd hcc hcont
      have hstep : mergeStep d M s = M ++ [⟨s.sclause, some v, s.sparent, d⟩] := by
        simp only [mergeStep, hv]
        rw [if_neg (by rw [hcontf]; simp)]
      obtain ⟨T, hT, hTr⟩ := ih (M ++ [⟨s.sclause, some v, s.sparent, d⟩])
      refine ⟨applyAll t ⟨s.sclause, some v, s.sparent, d⟩ :: T, ?_, ?_⟩
      · rw [show QueryProcessor.merge_new_fields_to_main_table d (s :: t) M
            = QueryProcessor.merge_new_fields_to_main_table d t (mergeStep d M s) from rfl,
          hstep, hT, List.map_append]
        have hpt : ∀ r ∈ M, applyAll t r = applyAll (s :: t) r := by
          intro r hr
          rw [applyAll_cons]
          congr 1
          symm
          apply updRow_of_no_match
          cases hq : sqlEq r.mclause s.sclause
          · rfl
          · exfalso
            have hc2 : containsClause M s.sclause = true := by
              unfold containsClause
              rw [List.any_eq_true]
              exact ⟨r, hr, hq⟩
            rw [hcontf] at hc2
            cases hc2
        rw [List.map_congr_left hpt]
        simp [List.append_assoc]
      · intro r hr
        rcases List.mem_cons.mp hr with heq | hmem
        · rw [heq, applyAll_rest]
        · exact hTr r hmem

end MergeLemmas2

section MergeClaims

variable {α ρ : Type} [DecidableEq α]

theorem setVP_self (r : MRow α ρ) (vp : α × Option α)
    (h1 : r.newf = some vp.1) (h2 : r.parent = vp.2) : setVP r vp = r := by
  cases r with
  | mk a b c dd =>
    simp only [setVP, MRow.mk.injEq, true_and, and_true]
    exact ⟨h1.symm, h2.symm⟩

theorem lastMatch_isSome_of_mem (L : List (SRow α)) (s : SRow α) (v c : α)
    (hs : s ∈ L) (hv : s.svalue = some v) (hc : s.sclause = some c) :
    (lastMatch L (some c)).isSome = true := by
  induction L with
  | nil => cases hs
  | cons s0 t ih =>
    rcases List.mem_cons.mp hs with heq | hmem
    · subst heq
      cases hl : lastMatch t (some c) with
      | some vp => simp [lastMatch, hl]
      | none => simp [lastMatch, hl, hv, hc, sqlEq_some_self]
    · obtain ⟨vp, hvp⟩ := Option.isSome_iff_exists.mp (ih hmem)
      simp [lastMatch, hvp]

end MergeClaims

/-- Counterexample to claim C1 as stated: a staging row whose `clause` is
`NULL` and whose value is non-null never matches any main row (sqlite
`NULL = NULL` is not true), so the `query_processor` merge INSERTS it again
on every run — after two merges the main table has two rows where one merge
leaves one. -/
theorem merge_cx_c1 :
    (QueryProcessor.merge_new_fields_to_main_table ([none] : List (Option String))
        [(⟨none, some "v", none⟩ : SRow String)]
        (QueryProcessor.merge_new_fields_to_main_table [none] [⟨none, some "v", none⟩]
          ([] : List (MRow String (List (Option String)))))).length = 2 ∧
    (QueryProcessor.merge_new_fields_to_main_table [none] [⟨none, some "v", none⟩]
        ([] : List (MRow String (List (Option String))))).length = 1 := by
  refine ⟨by decide, by decide⟩

/-- Claim C1 (amended): the `query_processor` merge is idempotent provided
every staging row with a non-null new-attribute value has a non-null clause
text: merging such a staging table twice leaves the main table exactly as
after one merge, for every database state.  (Staging rows with a `NULL`
clause and non-null value are re-inserted on every merge, which is the one
exception the counterexample exhibits.) -/
theorem merge_idempotent_c1 {α ρ : Type} [DecidableEq α] (d : ρ) (L : List (SRow α))
    (M : List (MRow α ρ))
    (H : ∀ s ∈ L, s.svalue.isSome = true → s.sclause.isSome = true) :
    QueryProcessor.merge_new_fields_to_main_table d L
        (QueryProcessor.merge_new_fields_to_main_table d L M)
      = QueryProcessor.merge_new_fields_to_main_table d L M := by
  have hcont : ∀ s ∈ L, s.svalue.isSome = true →
      containsClause (QueryProcessor.merge_new_fields_to_main_table d L M)
        s.sclause = true := by
    intro s hs hv
    obtain ⟨v, hv2⟩ := Option.isSome_iff_exists.mp hv
    obtain ⟨c, hc2⟩ := Option.isSome_iff_exists.mp (H s hs hv)
    rw [hc2]
    exact contains_after_merge d L M s v c hs hv2 hc2
  rw [merge_eq_map_applyAll d L _ hcont]
  have hfix : ∀ r ∈ QueryProcessor.merge_new_fields_to_main_table d L M,
      applyAll L r = r := by
    intro r hr
    rw [applyAll_char L r]
    cases hl : lastMatch L r.mclause with
    | none => rfl
    | some vp =>
      obtain ⟨h1, h2⟩ := merge_invariant d L M r hr vp hl
      exact setVP_self r vp h1 h2
  rw [List.map_congr_left hfix, List.map_id']

/-- Witness for the amended C1 theorem at a concrete staging table and main
table. -/
theorem merge_idempotent_c1_witness :
    QueryProcessor.merge_new_fields_to_main_table ([none] : List (Option String))
        [(⟨some "b", some "v", none⟩ : SRow String)]
        (QueryProcessor.merge_new_fields_to_main_table [none] [⟨some "b", some "v", none⟩]
          [(⟨some "a", none, none, ([some "x"] : List (Option String))⟩ :
            MRow String (List (Option String)))])
      = QueryProcessor.merge_new_fields_to_main_table [none] [⟨some "b", some "v", none⟩]
          [⟨some "a", none, none, [some "x"]⟩] :=
  merge_idempotent_c1 [none] _ _ (by decide)

/-- Counterexample to claim C2 as stated: the `free_query_v3` merge is a
single correlated `UPDATE` — a staging row with a non-null value whose
clause (`"b"`) matches no main-table row is silently dropped; no row is
inserted and the main table is left unchanged. -/
theorem merge_cx_c2 :
    FreeQueryV3.merge_new_fields_to_main_table
        [(⟨some "b", some "v", none⟩ : SRow String)]
        [(⟨some "a", none, none, ([none] : List (Option String))⟩ :
          MRow String (List (Option String)))]
      = [⟨some "a", none, none, [none]⟩] ∧
    ¬ ∃ r ∈ FreeQueryV3.merge_new_fields_to_main_table
        [(⟨some "b", some "v", none⟩ : SRow String)]
        [(⟨some "a", none, none, ([none] : List (Option String))⟩ :
          MRow String (List (Option String)))],
      r.mclause = some "b" := by
  refine ⟨by decide, by decide⟩

/-- Claim C2 (amended), for the `query_processor` merge (the `free_query_v3`
copy only updates and drops unmatched staging rows): for a staging row with
non-null value `v` and clause text `c`, (i) every main row whose clause
equals `c` ends with its new-attribute and `parent_field` columns set from
the last such staging row; (ii) when no main row matches `c`, a new row
keyed by `c` is inserted with the new attribute populated, `parent_field`
from the staging row, and all other columns `NULL`; (iii) the merged table
is the updated original rows followed by the inserted rows, whose other
columns are all `NULL`. -/
theorem merge_update_insert_c2 {α ρ : Type} [DecidableEq α] (d : ρ) (L : List (SRow α))
    (M : List (MRow α ρ)) (s : SRow α) (v c : α)
    (hs : s ∈ L) (hv : s.svalue = some v) (hc : s.sclause = some c) :
    (∀ vp, lastMatch L (some c) = some vp →
      ∀ r ∈ QueryProcessor.merge_new_fields_to_main_table d L M,
        sqlEq r.mclause (some c) = true → r.newf = some vp.1 ∧ r.parent = vp.2) ∧
    (containsClause M (some c) = false →
      ∃ r ∈ QueryProcessor.merge_new_fields_to_main_table d L M,
        r.mclause = some c ∧ r.newf.isSome = true ∧ r.rest = d) ∧
    (∃ T, QueryProcessor.merge_new_fields_to_main_table d L M
        = M.map (applyAll L) ++ T ∧ ∀ r ∈ T, r.rest = d) := by
  refine ⟨?_, ?_, merge_decomp d L M⟩
  · intro vp hlm r hr hm
    have hrc : r.mclause = some c := by
      rcases (sqlEq_true_iff _ _).mp hm with ⟨x, h1, h2⟩
      injection h2 with h3
      rw [h1, h3]
    apply merge_invariant d L M r hr vp
    rw [hrc]
    exact hlm
  · intro hcontM
    have hcontM1 : containsClause (QueryProcessor.merge_new_fields_to_main_table d L M)
        (some c) = true := contains_after_merge d L M s v c hs hv hc
    unfold containsClause at hcontM1
    obtain ⟨r, hrmem, hrq⟩ := List.any_eq_true.mp hcontM1
    obtain ⟨T, hT, hTr⟩ := merge_decomp d L M
    have hrc : r.mclause = some c := by
      rcases (sqlEq_true_iff _ _).mp hrq with ⟨x, h1, h2⟩
      injection h2 with h3
      rw [h1, h3]
    have hrT : r ∈ T := by
      rw [hT] at hrmem
      rcases List.mem_append.mp hrmem with hmap | hmem
      · exfalso
        rcases List.mem_map.mp hmap with ⟨r0, hr0, rfl⟩
        rw [applyAll_mclause] at hrc
        have hcm : containsClause M (some c) = true := by
          unfold containsClause
          rw [List.any_eq_true]
          refine ⟨r0, hr0, ?_⟩
          rw [hrc]
          exact sqlEq_some_self c
        rw [hcontM] at hcm
        cases hcm
      · exact hmem
    have hlmS : (lastMatch L (some c)).isSome = true :=
      lastMatch_isSome_of_mem L s v c hs hv hc
    obtain ⟨vp, hvp⟩ := Option.isSome_iff_exists.mp hlmS
    have hrmem2 : r ∈ QueryProcessor.merge_new_fields_to_main_table d L M := by
      rw [hT]
      exact List.mem_append.mpr (Or.inr hrT)
    obtain ⟨h1, _⟩ := merge_invariant d L M r hrmem2 vp (by rw [hrc]; exact hvp)
    refine ⟨r, hrmem2, hrc, by rw [h1]; rfl, hTr r hrT⟩

/-- Witness for the amended C2 theorem: a staging row for an unmatched
clause `"b"` yields an inserted row with the value populated and the other
columns `NULL`. -/
theorem merge_update_insert_c2_witness :
    ∃ r ∈ QueryProcessor.merge_new_fields_to_main_table ([none] : List (Option String))
        [(⟨some "b", some "v", some "p"⟩ : SRow String)]
        [(⟨some "a", none, none, ([some "x"] : List (Option String))⟩ :
          MRow String (List (Option String)))],
      r.mclause = some "b" ∧ r.newf.isSome = true ∧ r.rest = [none] :=
  (merge_update_insert_c2 [none] [⟨some "b", some "v", some "p"⟩]
      [⟨some "a", none, none, [some "x"]⟩] ⟨some "b", some "v", some "p"⟩ "v" "b"
      (by decide) rfl rfl).2.1 (by decide)
